import Mathlib

/-!
# tgt-vvp/draw_vpi.c: lowering of system task and function calls

A shallow embedding of `tgt-vvp/draw_vpi.c` (Icarus Verilog, vvp code
generator) and the properties of it that the specification states.

Conventions of the embedding:

* C strings are `String` values and `const char*bits` is a `List Char`
  indexed from the least significant bit.
* `long` values are kept as bit patterns (`Nat` below `2^W`) while they are
  built with `|=`, and read back in two's complement at the end.
* An `assert` failure, a null pointer passed to an accessor and a write past
  the end of `call_string` end a run with a `Fault`. A shift of the `int` 1
  by the width of `int` or more has the value that the target gives it.
* The collaborators in other files (`draw_eval_expr`, `clr_vector`, ...) are
  parameters; every call to them and every `fprintf` is recorded in a log.
-/

namespace DrawVpi

/-! ## The IR as seen through `ivl_target.h` -/

/-- Modelled from the spec: the enum `ivl_expr_type_t` is declared in
`ivl_target.h`, which is not among the sources. These are the kinds that
`draw_vpi.c` names, and further kinds for the `Other` of the spec's
expression variant. -/
inductive ivl_expr_type_t where
  | IVL_EX_NONE
  | IVL_EX_ARRAY
  | IVL_EX_BACCESS
  | IVL_EX_BINARY
  | IVL_EX_CONCAT
  | IVL_EX_EVENT
  | IVL_EX_MEMORY
  | IVL_EX_NUMBER
  | IVL_EX_REALNUM
  | IVL_EX_SCOPE
  | IVL_EX_SELECT
  | IVL_EX_SFUNC
  | IVL_EX_SIGNAL
  | IVL_EX_STRING
  | IVL_EX_TERNARY
  | IVL_EX_UFUNC
  | IVL_EX_ULONG
  | IVL_EX_UNARY
deriving DecidableEq, Repr

/-- Modelled from the spec: the enum `ivl_variable_type_t` is declared in
`ivl_target.h`, which is not among the sources. The value kinds of an
expression: the logic, boolean and real kinds that `draw_vpi.c` names, and
two kinds for the spec's "any other value kind". -/
inductive ivl_variable_type_t where
  | IVL_VT_VOID
  | IVL_VT_NO_TYPE
  | IVL_VT_REAL
  | IVL_VT_BOOL
  | IVL_VT_LOGIC
deriving DecidableEq, Repr

/-- Modelled from the spec: the enum `ivl_signal_type_t` is declared in
`ivl_target.h`, which is not among the sources. The storage kinds of a
signal: the variable kind `IVL_SIT_REG` that `draw_vpi.c` names, and
net-like kinds. -/
inductive ivl_signal_type_t where
  | IVL_SIT_NONE
  | IVL_SIT_REG
  | IVL_SIT_TRI
  | IVL_SIT_TRI0
  | IVL_SIT_TRI1
  | IVL_SIT_TRIAND
  | IVL_SIT_TRIOR
deriving DecidableEq, Repr

/-- Modelled from the spec: `ivl_signal_t` is an opaque pointer whose
structure is not among the sources. A declared signal, with one field per
accessor that `draw_vpi.c` calls (declared width, signedness, array
dimensions, storage kind); `addr` is the pointer value, which is what `%p`
prints and what gives the signal its identity in the output. -/
structure ivl_signal where
  addr : Nat
  width : Nat
  signed_ : Bool
  dimensions : Nat
  type_ : ivl_signal_type_t
deriving DecidableEq, Repr

/-- Modelled from the spec: `ivl_expr_t` is an opaque pointer whose
structure is not among the sources. An expression node, with one field per
accessor that `draw_vpi.c` calls; `bits` is the character array of
`ivl_expr_bits` with index 0 the least significant bit, `parms` are the
arguments `ivl_expr_parm(fnet, 0)` up to `ivl_expr_parms(fnet) - 1`, and a
null pointer is `none`. -/
structure ivl_expr where
  type_ : ivl_expr_type_t
  value_ : ivl_variable_type_t
  width : Nat
  signed_ : Bool
  bits : List Char
  signal : ivl_signal
  oper1 : Option ivl_expr
  oper2 : Option ivl_expr
  parameter : Option Nat
  string_ : String
  event : Nat
  scope : Nat
  name : String
  parms : List ivl_expr
  file : String
  lineno : Nat

/-- Modelled from the spec: `ivl_statement_t` is an opaque pointer whose
structure is not among the sources. The statement of a system task call;
`parms` are the arguments `ivl_stmt_parm(tnet, 0)` up to
`ivl_stmt_parm_count(tnet) - 1`. -/
structure ivl_statement where
  parms : List ivl_expr
  name : String
  file : String
  lineno : Nat

def ivl_expr_type (ex : ivl_expr) : ivl_expr_type_t := ex.type_
def ivl_expr_value (ex : ivl_expr) : ivl_variable_type_t := ex.value_
def ivl_expr_width (ex : ivl_expr) : Nat := ex.width
def ivl_expr_signed (ex : ivl_expr) : Bool := ex.signed_
def ivl_expr_bits (ex : ivl_expr) : List Char := ex.bits
def ivl_expr_signal (ex : ivl_expr) : ivl_signal := ex.signal
def ivl_expr_oper1 (ex : ivl_expr) : Option ivl_expr := ex.oper1
def ivl_expr_oper2 (ex : ivl_expr) : Option ivl_expr := ex.oper2
def ivl_expr_parameter (ex : ivl_expr) : Option Nat := ex.parameter
def ivl_expr_string (ex : ivl_expr) : String := ex.string_
def ivl_expr_event (ex : ivl_expr) : Nat := ex.event
def ivl_expr_scope (ex : ivl_expr) : Nat := ex.scope
def ivl_expr_name (ex : ivl_expr) : String := ex.name
def ivl_expr_parm_list (ex : ivl_expr) : List ivl_expr := ex.parms
def ivl_expr_file (ex : ivl_expr) : String := ex.file
def ivl_expr_lineno (ex : ivl_expr) : Nat := ex.lineno
def ivl_signal_width (s : ivl_signal) : Nat := s.width
def ivl_signal_signed (s : ivl_signal) : Bool := s.signed_
def ivl_signal_dimensions (s : ivl_signal) : Nat := s.dimensions
def ivl_signal_type (s : ivl_signal) : ivl_signal_type_t := s.type_
def ivl_stmt_parm_list (t : ivl_statement) : List ivl_expr := t.parms
def ivl_stmt_name (t : ivl_statement) : String := t.name
def ivl_stmt_file (t : ivl_statement) : String := t.file
def ivl_stmt_lineno (t : ivl_statement) : Nat := t.lineno

/-! ## The compilation target -/

/-- What the C implementation fixes: the sizes of `long` and `int` (in
bytes), how `%p` prints a pointer, the numeric values of the
`ivl_variable_type_t` enumerators (the enum is declared in `ivl_target.h`),
and the value that the compiled program gets for `1 << idx` when `idx` is
at least the width of `int`, where the C language defines none. -/
structure Target where
  sizeof_long : Nat
  sizeof_int : Nat
  fmt_p : Nat → String
  value_code : ivl_variable_type_t → Nat
  shl_overflow : Nat → Int

/-- The `%p` rendering of glibc for a non-null pointer. -/
def glibc_fmt_p (a : Nat) : String := "0x" ++ String.mk (Nat.toDigits 16 a)

/-- Modelled from the spec: the values of the `ivl_variable_type_t`
enumerators are fixed by `ivl_target.h`, which is not among the sources.
The sample targets number the kinds in the order listed here. -/
def value_code (v : ivl_variable_type_t) : Nat :=
  match v with
  | .IVL_VT_VOID => 0
  | .IVL_VT_NO_TYPE => 1
  | .IVL_VT_REAL => 2
  | .IVL_VT_BOOL => 3
  | .IVL_VT_LOGIC => 4

/-- How a run can end without returning. -/
inductive Fault where
  /-- An `assert` failed. -/
  | assert_failed
  /-- The C program did something whose result the language leaves
  undefined and that the embedding does not follow further (a null
  pointer passed to an accessor, a write past the end of a buffer). -/
  | undefined
deriving DecidableEq, Repr

deriving instance DecidableEq for Except

/-! ## Machine integers -/

/-- The two's complement value of the low `w` bits of `n`. -/
def to_signed (w : Nat) (n : Nat) : Int :=
  if n % 2 ^ w < 2 ^ (w - 1) then ((n % 2 ^ w : Nat) : Int)
  else ((n % 2 ^ w : Nat) : Int) - ((2 ^ w : Nat) : Int)

/-- The `w`-bit two's complement pattern of `v`. -/
def to_pattern (w : Nat) (v : Int) : Nat := (v % ((2 ^ w : Nat) : Int)).toNat

/-- The C expression `1 << idx`. The literal `1` has type `int`, so the
shift is done in `int`: it is `2^idx` while that fits, `INT_MIN` when
`idx` is the sign position (the two's complement result that GCC and Clang
define), and once `idx` reaches the width of `int`, where C defines no
result, whatever the target computes. -/
def int_shl1 (T : Target) (idx : Nat) : Int :=
  if idx < 8 * T.sizeof_int then to_signed (8 * T.sizeof_int) (2 ^ idx)
  else T.shl_overflow idx

/-- The 32-bit shift of machines that take the shift count modulo 32
(x86-64, AArch64): `1 << idx` computed as `1 << (idx % 32)`. -/
def masked_shl1 (idx : Nat) : Int := to_signed 32 (2 ^ (idx % 32))

/-- A 64-bit Unix target: `long` is 64 bits, `int` is 32 bits, and a
shift count is taken modulo 32. -/
def lp64 : Target := ⟨8, 4, glibc_fmt_p, value_code, masked_shl1⟩

/-- A target whose `long` and `int` are both 32 bits (32-bit Unix, Windows). -/
def ilp32 : Target := ⟨4, 4, glibc_fmt_p, value_code, masked_shl1⟩

/-- The element `bits[idx]` of a C character array. The array holds
`ivl_expr_width` characters; the embedding reads a NUL outside it, and
the theorems only read inside. (At width 0 the source reads
`bits[nbits-1]` with `nbits-1` wrapped to `UINT_MAX`, far outside the
array, where the embedding reads `bits[0]`, also outside; the theorems are
about widths of at least 1.) -/
def char_at (bits : List Char) (idx : Nat) : Char := bits.getD idx (Char.ofNat 0)

/-! ## `is_constant_number` and `get_constant_number` -/

/-- Check to see if the expression (number) can be correctly represented
with a long variable. (`draw_vpi.c`, lines 36-66.) -/
def is_constant_number (T : Target) (ex : ivl_expr) : Bool :=
  let lim_wid := 8 * T.sizeof_long
  let pad_bit := '0'
  let nbits := ivl_expr_width ex
  if ivl_expr_type ex ≠ .IVL_EX_NUMBER ∧ ivl_expr_type ex ≠ .IVL_EX_ULONG then false
  else
    let bits := ivl_expr_bits ex
    -- For unsigned values the effective MSB and on must be '0'.
    let lim_wid := if !ivl_expr_signed ex then lim_wid - 1 else lim_wid
    -- For negative values the pad bit is '1'.
    let pad_bit := if ivl_expr_signed ex && char_at bits (nbits - 1) == '1' then '1' else pad_bit
    -- For the number to fit in the variable all the upper bits must match the pad bits.
    (List.range' lim_wid (nbits - lim_wid)).all (fun idx => char_at bits idx == pad_bit)

/-- One pass of the loop body of `get_constant_number`: `rtn` is the bit
pattern of the `long` being built. -/
def get_constant_number_step (T : Target) (bits : List Char) (nbits : Nat) (pad_bit : Char)
    (rtn : Nat) (idx : Nat) : Except Fault Nat :=
  let bit := if idx < nbits then char_at bits idx else pad_bit
  if bit = '0' then .ok rtn
  else if bit = '1' then .ok (rtn ||| to_pattern (8 * T.sizeof_long) (int_shl1 T idx))
  else .error Fault.assert_failed

/-- Convert the expression (number) to a long value.
(`draw_vpi.c`, lines 71-106.) -/
def get_constant_number (T : Target) (ex : ivl_expr) : Except Fault Int :=
  match ivl_expr_type ex with
  | .IVL_EX_ULONG =>
    .ok (to_signed (8 * T.sizeof_int) (T.value_code (ivl_expr_value ex)))
  | .IVL_EX_NUMBER =>
    let bits := ivl_expr_bits ex
    let nbits := ivl_expr_width ex
    let pad_bit := char_at bits (nbits - 1)
    -- Define all the bits in the long (negative numbers).
    match (List.range (8 * T.sizeof_long)).foldlM
        (get_constant_number_step T bits nbits pad_bit) 0 with
    | .ok rtn => .ok (to_signed (8 * T.sizeof_long) rtn)
    | .error f => .error f
  | _ => .error Fault.assert_failed

/-! ## What a constant denotes -/

/-- The unsigned value of a bit string, index 0 least significant: the sum
of `2^i` over the positions holding `'1'`. -/
def unsigned_value : List Char → Nat
  | [] => 0
  | c :: cs => (if c = '1' then 1 else 0) + 2 * unsigned_value cs

/-- The integer a constant denotes: the unsigned value of its bits when
the expression is unsigned, their two's complement value when it is signed. -/
def number_value (ex : ivl_expr) : Int :=
  if ivl_expr_signed ex then to_signed (ivl_expr_width ex) (unsigned_value (ivl_expr_bits ex))
  else (unsigned_value (ivl_expr_bits ex) : Int)

/-- A value is representable in a C `long` of the target. -/
def fits_long (T : Target) (v : Int) : Prop :=
  -((2 ^ (8 * T.sizeof_long - 1) : Nat) : Int) ≤ v ∧ v ≤ ((2 ^ (8 * T.sizeof_long - 1) : Nat) : Int) - 1

instance (T : Target) (v : Int) : Decidable (fits_long T v) := by
  unfold fits_long; exact inferInstance

/-- Every character of the bit string is `'0'` or `'1'`. -/
def all_binary (bits : List Char) : Prop := ∀ c ∈ bits, c = '0' ∨ c = '1'

instance (bits : List Char) : Decidable (all_binary bits) := by
  unfold all_binary; exact inferInstance

/-- Bit `i` of the `w`-bit two's complement representation of `v`. -/
def long_bit (w : Nat) (v : Int) (i : Nat) : Bool := (to_pattern w v).testBit i

/-! ## Collaborators, the log and the world -/

/-- Modelled from the spec: `struct vector_info` is declared in
`vvp_priv.h`, which is not among the sources. A vector of thread bits: base
index and width. -/
structure vector_info where
  base : Nat
  wid : Nat
deriving DecidableEq, Repr

/-- What a lowering does that is visible outside it: a call into another
file of the code generator, or a write of its own to a stream. (What the
collaborators write themselves is part of their state, not of this log.) -/
inductive Event where
  | draw_eval_expr (ex : ivl_expr) (stuff_ok : Nat) (res : vector_info)
  | draw_eval_real (ex : ivl_expr) (res : Nat)
  | clr_vector (vec : vector_info)
  | clr_word (idx : Nat)
  | allocate_vector (wid : Nat) (res : Nat)
  | allocate_word (res : Int)
  | fprintf_vvp_out (text : String)
  | fprintf_stderr (text : String)

/-- The functions and the macro that `draw_vpi.c` takes from `vvp_priv.h`
and `ivl_target.h`. Their code is in other files; `σ` is whatever state
they keep (the allocation tables, the instructions they emit themselves). -/
structure Collab (σ : Type) where
  STUFF_OK_XZ : Nat
  draw_eval_expr : ivl_expr → Nat → σ → vector_info × σ
  draw_eval_real : ivl_expr → σ → Nat × σ
  clr_vector : vector_info → σ → σ
  clr_word : Nat → σ → σ
  allocate_vector : Nat → σ → Nat × σ
  allocate_word : σ → Int × σ
  number_is_immediate : ivl_expr → Nat → Bool
  get_number_immediate : ivl_expr → Nat
  ivl_file_table_index : String → Nat

/-- The state a lowering runs in: the collaborators' state, the log of
events so far (oldest first) and the global `vvp_errors`. -/
structure World (σ : Type) where
  ext : σ
  log : List Event
  vvp_errors : Int

/-- The call `draw_eval_expr(ex, stuff_ok)`. -/
def call_draw_eval_expr {σ : Type} (C : Collab σ) (ex : ivl_expr) (stuff_ok : Nat)
    (w : World σ) : vector_info × World σ :=
  let r := C.draw_eval_expr ex stuff_ok w.ext
  (r.1, { w with ext := r.2, log := w.log ++ [Event.draw_eval_expr ex stuff_ok r.1] })

/-- The call `draw_eval_real(ex)`. -/
def call_draw_eval_real {σ : Type} (C : Collab σ) (ex : ivl_expr)
    (w : World σ) : Nat × World σ :=
  let r := C.draw_eval_real ex w.ext
  (r.1, { w with ext := r.2, log := w.log ++ [Event.draw_eval_real ex r.1] })

/-- The call `clr_vector(vec)`. -/
def call_clr_vector {σ : Type} (C : Collab σ) (vec : vector_info) (w : World σ) : World σ :=
  { w with ext := C.clr_vector vec w.ext, log := w.log ++ [Event.clr_vector vec] }

/-- The call `clr_word(idx)`. -/
def call_clr_word {σ : Type} (C : Collab σ) (idx : Nat) (w : World σ) : World σ :=
  { w with ext := C.clr_word idx w.ext, log := w.log ++ [Event.clr_word idx] }

/-- The call `allocate_vector(wid)`. -/
def call_allocate_vector {σ : Type} (C : Collab σ) (wid : Nat) (w : World σ) : Nat × World σ :=
  let r := C.allocate_vector wid w.ext
  (r.1, { w with ext := r.2, log := w.log ++ [Event.allocate_vector wid r.1] })

/-- The call `allocate_word()`. -/
def call_allocate_word {σ : Type} (C : Collab σ) (w : World σ) : Int × World σ :=
  let r := C.allocate_word w.ext
  (r.1, { w with ext := r.2, log := w.log ++ [Event.allocate_word r.1] })

/-- The call `fprintf(vvp_out, ...)` with the formatted text. -/
def fprintf_vvp_out {σ : Type} (text : String) (w : World σ) : World σ :=
  { w with log := w.log ++ [Event.fprintf_vvp_out text] }

/-- The call `fprintf(stderr, ...)` with the formatted text. -/
def fprintf_stderr {σ : Type} (text : String) (w : World σ) : World σ :=
  { w with log := w.log ++ [Event.fprintf_stderr text] }

/-! ## `is_magic_sfunc` and `is_fixed_memory_word` -/

/-- The table `magic_sfuncs`, without its terminating null. -/
def magic_sfuncs : List String := ["$time", "$stime", "$realtime", "$simtime"]

/-- The function `is_magic_sfunc` (`draw_vpi.c`, lines 116-124). -/
def is_magic_sfunc (name : String) : Bool :=
  magic_sfuncs.any (fun m => m == name)

/-- The function `is_fixed_memory_word` (`draw_vpi.c`, lines 126-145).
`number_is_immediate` dereferences its argument, so a missing word index
has no defined result there. -/
def is_fixed_memory_word {σ : Type} (T : Target) (C : Collab σ) (net : ivl_expr) :
    Except Fault Bool :=
  if ivl_expr_type net ≠ .IVL_EX_SIGNAL then .ok false
  else
    let sig := ivl_expr_signal net
    if ivl_signal_dimensions sig = 0 then .ok true
    else if ivl_signal_type sig = .IVL_SIT_REG then .ok false
    else
      match ivl_expr_oper1 net with
      | none => .error Fault.undefined
      | some word => if C.number_is_immediate word (8 * T.sizeof_int) then .ok true else .ok false

/-! ## `draw_vpi_taskfunc_args` -/

/-- The local `struct args_info`: the operand text, and the vector to
release after the text is written when `vec_flag` is set. -/
structure args_info where
  text : String
  vec_flag : Bool
  vec : vector_info
deriving DecidableEq, Repr

/-- An element of the `calloc`ed array after only its text is assigned. -/
def text_only (text : String) : args_info := ⟨text, false, ⟨0, 0⟩⟩

/-- The size of the local `buffer`. -/
def sizeof_buffer : Nat := 4096

/-- What `snprintf(buffer, sizeof buffer, ...)` leaves in `buffer` when an
argument is a string of any length: the formatted text cut to fit. (The
other format strings take only numbers and pointers and stay far below
the buffer size.) -/
def snprintf_buffer (text : String) : String := String.mk (text.data.take (sizeof_buffer - 1))

/-- The copy loop of the `IVL_EX_NUMBER` case, started at `bit`:
`for ( ; bit > 0 ; bit -= 1) *dp++ = bits[bit-1];`. -/
def copy_bits (bits : List Char) : Nat → List Char
  | 0 => []
  | bit + 1 => char_at bits bit :: copy_bits bits bit

/-- The word index of a signal expression as both signal branches compute
it: `use_word` (an `unsigned`) and what is left of `word_ex`. -/
def resolve_word {σ : Type} (T : Target) (C : Collab σ) (expr : ivl_expr) :
    Nat × Option ivl_expr :=
  match ivl_expr_oper1 expr with
  | some word_ex =>
    -- Some array select have been evaluated.
    if C.number_is_immediate word_ex (8 * T.sizeof_int) then
      (C.get_number_immediate word_ex % 2 ^ (8 * T.sizeof_int), none)
    else (0, some word_ex)
  | none => (0, none)

/-- The first `switch` of the classification loop, on `ivl_expr_type(expr)`.
`some` is a `continue` with the element of `args` filled in; `none` is a
`break`, which leaves the expression to be evaluated. -/
def classify_direct {σ : Type} (T : Target) (C : Collab σ) (expr : ivl_expr) (w : World σ) :
    Except Fault (Option (args_info × World σ)) :=
  match ivl_expr_type expr with
  | .IVL_EX_NONE => .ok (some (text_only "\" \"", w))
  | .IVL_EX_ARRAY =>
    .ok (some (text_only ("v" ++ T.fmt_p (ivl_expr_signal expr).addr), w))
  | .IVL_EX_NUMBER =>
    let wid := ivl_expr_width expr
    let bits := ivl_expr_bits expr
    let buffer := toString wid ++ "'" ++ (if ivl_expr_signed expr then "s" else "") ++ "b"
    -- assert(dp - buffer <= sizeof buffer), after the digits and the NUL are written
    if buffer.length + wid + 1 ≤ sizeof_buffer then
      .ok (some (text_only (buffer ++ String.mk (copy_bits bits wid)), w))
    else .error Fault.assert_failed
  | .IVL_EX_STRING =>
    match ivl_expr_parameter expr with
    | some par => .ok (some (text_only ("P_" ++ T.fmt_p par), w))
    | none => .ok (some (text_only (snprintf_buffer ("\"" ++ ivl_expr_string expr ++ "\"")), w))
  | .IVL_EX_EVENT => .ok (some (text_only ("E_" ++ T.fmt_p (ivl_expr_event expr)), w))
  | .IVL_EX_SCOPE => .ok (some (text_only ("S_" ++ T.fmt_p (ivl_expr_scope expr)), w))
  | .IVL_EX_SFUNC =>
    if is_magic_sfunc (ivl_expr_name expr) then
      .ok (some (text_only (snprintf_buffer (ivl_expr_name expr)), w))
    else .ok none
  | .IVL_EX_SIGNAL =>
    if ivl_expr_width expr ≠ ivl_signal_width (ivl_expr_signal expr) then .ok none
    else if ivl_expr_signed expr ≠ ivl_signal_signed (ivl_expr_signal expr) then .ok none
    else
      match is_fixed_memory_word T C expr with
      | .error f => .error f
      | .ok true =>
        -- This is a word of a non-array, or a word of a net array, so we
        -- can address the word directly.
        let sig := ivl_expr_signal expr
        match resolve_word T C expr with
        | (_, some _) => .ok none
        | (use_word, none) =>
          .ok (some (text_only ("v" ++ T.fmt_p sig.addr ++ "_" ++ toString use_word), w))
      | .ok false =>
        -- What's left, this is the work of a var array.
        let sig := ivl_expr_signal expr
        match resolve_word T C expr with
        | (use_word, none) =>
          .ok (some (text_only ("&A<v" ++ T.fmt_p sig.addr ++ ", " ++ toString use_word ++ ">"), w))
        | (_, some word_ex) =>
          if ivl_expr_type word_ex = .IVL_EX_SIGNAL then
            -- Special case: the index is a signal.
            .ok (some (text_only ("&A<v" ++ T.fmt_p sig.addr ++ ", v"
              ++ T.fmt_p (ivl_expr_signal word_ex).addr ++ "_0 >"), w))
          else
            -- fallback case: evaluate expression.
            let r := call_draw_eval_expr C word_ex C.STUFF_OK_XZ w
            let av := r.1
            .ok (some (⟨"&A<v" ++ T.fmt_p sig.addr ++ ", " ++ toString av.base ++ " "
              ++ toString av.wid ++ ">", true, av⟩, r.2))
  | .IVL_EX_SELECT =>
    match ivl_expr_oper1 expr with
    | none => .error Fault.assert_failed
    | some vexpr =>
      -- This code is only for signals.
      if ivl_expr_type vexpr ≠ .IVL_EX_SIGNAL then .ok none
      -- The signal is part of an array.
      else if (ivl_expr_oper1 vexpr).isSome then .ok none
      else
        match ivl_expr_oper2 expr with
        | none => .error Fault.assert_failed
        | some bexpr =>
          -- This is a constant bit/part select.
          if is_constant_number T bexpr then
            match get_constant_number T bexpr with
            | .error f => .error f
            | .ok k =>
              .ok (some (text_only ("&PV<v" ++ T.fmt_p (ivl_expr_signal vexpr).addr ++ "_0, "
                ++ toString k ++ ", " ++ toString (ivl_expr_width expr) ++ ">"), w))
          -- This is an indexed bit/part select.
          else
            let r := call_draw_eval_expr C bexpr C.STUFF_OK_XZ w
            let rv := r.1
            .ok (some (text_only ("&PV<v" ++ T.fmt_p (ivl_expr_signal vexpr).addr ++ "_0, "
              ++ toString rv.base ++ " " ++ toString rv.wid ++ ", "
              ++ toString (ivl_expr_width expr) ++ ">"), r.2))
  -- Everything else will need to be evaluated and passed as a constant
  -- to the vpi task.
  | _ => .ok none

/-- The second `switch` of the classification loop, on
`ivl_expr_value(expr)`: the expression is evaluated. -/
def classify_eval {σ : Type} (C : Collab σ) (expr : ivl_expr) (w : World σ) :
    Except Fault (args_info × World σ) :=
  match ivl_expr_value expr with
  | .IVL_VT_LOGIC | .IVL_VT_BOOL =>
    let r := call_draw_eval_expr C expr 0 w
    .ok (⟨"T<" ++ toString r.1.base ++ "," ++ toString r.1.wid ++ ","
      ++ (if ivl_expr_signed expr then "s" else "u") ++ ">", true, r.1⟩, r.2)
  | .IVL_VT_REAL =>
    let r := call_draw_eval_real C expr w
    .ok (⟨"W<" ++ toString r.1 ++ ",r>", true, ⟨r.1, 0⟩⟩, r.2)
  | _ => .error Fault.assert_failed

/-- One pass of the classification loop (`draw_vpi.c`, lines 169-367):
the element of `args` for one argument. -/
def classify_arg {σ : Type} (T : Target) (C : Collab σ) (expr : ivl_expr) (w : World σ) :
    Except Fault (args_info × World σ) :=
  match classify_direct T C expr w with
  | .error f => .error f
  | .ok (some r) => .ok r
  | .ok none => classify_eval C expr w

/-- The classification loop over the arguments, in order. -/
def classify_args {σ : Type} (T : Target) (C : Collab σ) :
    List ivl_expr → World σ → Except Fault (List args_info × World σ)
  | [], w => .ok ([], w)
  | expr :: rest, w =>
    match classify_arg T C expr w with
    | .error f => .error f
    | .ok (a, w1) =>
      match classify_args T C rest w1 with
      | .error f => .error f
      | .ok (as, w2) => .ok (a :: as, w2)

/-- One pass of the second loop (`draw_vpi.c`, lines 371-381): write the
operand, then release what it holds. -/
def emit_arg {σ : Type} (C : Collab σ) (a : args_info) (w : World σ) : World σ :=
  let w1 := fprintf_vvp_out (", " ++ a.text) w
  if a.vec_flag then
    if a.vec.wid > 0 then call_clr_vector C a.vec w1
    else call_clr_word C a.vec.base w1
  else w1

/-- The second loop over `args`, in order. -/
def emit_args {σ : Type} (C : Collab σ) : List args_info → World σ → World σ
  | [], w => w
  | a :: rest, w => emit_args C rest (emit_arg C a w)

/-- The arguments of the call: `ivl_stmt_parm(tnet, idx)` when `tnet` is
not null, `ivl_expr_parm(fnet, idx)` otherwise. A null pointer is `none`;
with both null the argument count is read through a null pointer. -/
def call_parms (tnet : Option ivl_statement) (fnet : Option ivl_expr) :
    Except Fault (List ivl_expr) :=
  match tnet, fnet with
  | some t, _ => .ok (ivl_stmt_parm_list t)
  | none, some f => .ok (ivl_expr_parm_list f)
  | none, none => .error Fault.undefined

/-- The function `draw_vpi_taskfunc_args` (`draw_vpi.c`, lines 147-386). -/
def draw_vpi_taskfunc_args {σ : Type} (T : Target) (C : Collab σ) (call_string : String)
    (tnet : Option ivl_statement) (fnet : Option ivl_expr) (w : World σ) :
    Except Fault (World σ) :=
  match call_parms tnet fnet with
  | .error f => .error f
  | .ok ps =>
    match classify_args T C ps w with
    | .error f => .error f
    | .ok (args, w1) =>
      let w2 := fprintf_vvp_out call_string w1
      let w3 := emit_args C args w2
      .ok (fprintf_vvp_out ";\n" w3)

/-! ## The entry points -/

/-- The size of the local `call_string` of the three entry points. -/
def sizeof_call_string : Nat := 1024

/-- What `sprintf(call_string, ...)` leaves: the formatted text, unless it
and its NUL do not fit, when the write runs past the array. -/
def sprintf_call_string (text : String) : Except Fault String :=
  if text.length + 1 ≤ sizeof_call_string then .ok text else .error Fault.undefined

/-- The function `draw_vpi_task_call` (`draw_vpi.c`, lines 388-395). -/
def draw_vpi_task_call {σ : Type} (T : Target) (C : Collab σ) (tnet : ivl_statement)
    (w : World σ) : Except Fault (World σ) :=
  match sprintf_call_string ("    %vpi_call "
      ++ toString (C.ivl_file_table_index (ivl_stmt_file tnet)) ++ " "
      ++ toString (ivl_stmt_lineno tnet) ++ " \"" ++ ivl_stmt_name tnet ++ "\"") with
  | .error f => .error f
  | .ok call_string => draw_vpi_taskfunc_args T C call_string (some tnet) none w

/-- The function `draw_vpi_func_call` (`draw_vpi.c`, lines 397-418). -/
def draw_vpi_func_call {σ : Type} (T : Target) (C : Collab σ) (fnet : ivl_expr) (wid : Nat)
    (w : World σ) : Except Fault (vector_info × World σ) :=
  let r := call_allocate_vector C wid w
  let res : vector_info := ⟨r.1, wid⟩
  let w1 :=
    if res.base = 0 then
      let w0 := fprintf_stderr (ivl_expr_file fnet ++ ":" ++ toString (ivl_expr_lineno fnet)
        ++ ": vvp.tgt error: Unable to allocate " ++ toString wid
        ++ " thread bits for system function result.\n") r.2
      { w0 with vvp_errors := w0.vvp_errors + 1 }
    else r.2
  match sprintf_call_string ("    %vpi_func "
      ++ toString (C.ivl_file_table_index (ivl_expr_file fnet)) ++ " "
      ++ toString (ivl_expr_lineno fnet) ++ " \"" ++ ivl_expr_name fnet ++ "\", "
      ++ toString res.base ++ ", " ++ toString res.wid) with
  | .error f => .error f
  | .ok call_string =>
    match draw_vpi_taskfunc_args T C call_string none (some fnet) w1 with
    | .error f => .error f
    | .ok w2 => .ok (res, w2)

/-- The function `draw_vpi_rfunc_call` (`draw_vpi.c`, lines 420-432). -/
def draw_vpi_rfunc_call {σ : Type} (T : Target) (C : Collab σ) (fnet : ivl_expr)
    (w : World σ) : Except Fault (Int × World σ) :=
  let r := call_allocate_word C w
  let res := r.1
  match sprintf_call_string ("    %vpi_func/r "
      ++ toString (C.ivl_file_table_index (ivl_expr_file fnet)) ++ " "
      ++ toString (ivl_expr_lineno fnet) ++ " \"" ++ ivl_expr_name fnet ++ "\", "
      ++ toString res) with
  | .error f => .error f
  | .ok call_string =>
    match draw_vpi_taskfunc_args T C call_string none (some fnet) r.2 with
    | .error f => .error f
    | .ok w2 => .ok (res, w2)

/-! ## The call lines and the state after the reservation -/

/-- The text that `draw_vpi_task_call` formats into `call_string`. -/
def vpi_call_line {σ : Type} (C : Collab σ) (tnet : ivl_statement) : String :=
  "    %vpi_call " ++ toString (C.ivl_file_table_index (ivl_stmt_file tnet)) ++ " "
    ++ toString (ivl_stmt_lineno tnet) ++ " \"" ++ ivl_stmt_name tnet ++ "\""

/-- The text that `draw_vpi_func_call` formats into `call_string` for the
result vector `{base, wid}`. -/
def vpi_func_line {σ : Type} (C : Collab σ) (fnet : ivl_expr) (base wid : Nat) : String :=
  "    %vpi_func " ++ toString (C.ivl_file_table_index (ivl_expr_file fnet)) ++ " "
    ++ toString (ivl_expr_lineno fnet) ++ " \"" ++ ivl_expr_name fnet ++ "\", "
    ++ toString base ++ ", " ++ toString wid

/-- The text that `draw_vpi_rfunc_call` formats into `call_string` for the
result word `res`. -/
def vpi_func_r_line {σ : Type} (C : Collab σ) (fnet : ivl_expr) (res : Int) : String :=
  "    %vpi_func/r " ++ toString (C.ivl_file_table_index (ivl_expr_file fnet)) ++ " "
    ++ toString (ivl_expr_lineno fnet) ++ " \"" ++ ivl_expr_name fnet ++ "\", "
    ++ toString res

/-- The diagnostic that `draw_vpi_func_call` writes to `stderr` when the
reservation of the result vector fails. -/
def reservation_diagnostic (fnet : ivl_expr) (wid : Nat) : String :=
  ivl_expr_file fnet ++ ":" ++ toString (ivl_expr_lineno fnet)
    ++ ": vvp.tgt error: Unable to allocate " ++ toString wid
    ++ " thread bits for system function result.\n"

/-- The world in which `draw_vpi_func_call` goes on after the reservation:
the allocator has run, the call is logged, and when the base that came
back is 0 the diagnostic is written and `vvp_errors` is one higher. -/
def after_reservation {σ : Type} (C : Collab σ) (fnet : ivl_expr) (wid : Nat) (w : World σ) :
    World σ :=
  ⟨(C.allocate_vector wid w.ext).2,
    w.log ++ Event.allocate_vector wid (C.allocate_vector wid w.ext).1
      :: (if (C.allocate_vector wid w.ext).1 = 0
          then [Event.fprintf_stderr (reservation_diagnostic fnet wid)] else []),
    w.vvp_errors + (if (C.allocate_vector wid w.ext).1 = 0 then 1 else 0)⟩

/-! ## Reading the log -/

/-- A temporary is acquired: `draw_eval_expr` or `draw_eval_real` is called. -/
def Event.is_acquire : Event → Bool
  | .draw_eval_expr _ _ _ => true
  | .draw_eval_real _ _ => true
  | _ => false

/-- A temporary is released: `clr_vector` or `clr_word` is called. -/
def Event.is_release : Event → Bool
  | .clr_vector _ => true
  | .clr_word _ => true
  | _ => false

/-- The number of temporaries acquired in a log. -/
def acquisitions (log : List Event) : Nat := log.countP Event.is_acquire

/-- The number of releases in a log. -/
def releases (log : List Event) : Nat := log.countP Event.is_release

/-- The text that the `fprintf(vvp_out, ...)` calls of a log wrote, in order. -/
def vvp_text : List Event → String
  | [] => ""
  | .fprintf_vvp_out text :: rest => text ++ vvp_text rest
  | _ :: rest => vvp_text rest

/-- The operand list of a call line: each token preceded by `", "`. -/
def operand_list : List String → String
  | [] => ""
  | token :: rest => ", " ++ token ++ operand_list rest

/-- The release that the second loop makes for a descriptor that owns a
vector: `clr_vector` of the vector when its width is positive, `clr_word`
of its base otherwise (`draw_vpi.c`, lines 375-380). -/
def release_event (a : args_info) : Event :=
  if a.vec.wid > 0 then Event.clr_vector a.vec else Event.clr_word a.vec.base

/-- The events of the second loop for the descriptors `args`, in order:
for each descriptor the write of `", "` and its text, followed by its
release when the descriptor owns a vector. -/
def emit_events : List args_info → List Event
  | [] => []
  | a :: rest =>
    Event.fprintf_vvp_out (", " ++ a.text)
      :: ((if a.vec_flag then [release_event a] else []) ++ emit_events rest)

/-- An indexed part select of a plain signal: an `IVL_EX_SELECT` whose base
is a signal expression without word index and whose offset
`is_constant_number` does not accept. -/
def is_indexed_select (T : Target) (expr : ivl_expr) : Bool :=
  match ivl_expr_type expr, ivl_expr_oper1 expr, ivl_expr_oper2 expr with
  | .IVL_EX_SELECT, some vexpr, some bexpr =>
    ivl_expr_type vexpr == .IVL_EX_SIGNAL && (ivl_expr_oper1 vexpr).isNone
      && !is_constant_number T bexpr
  | _, _, _ => false

/-! ## Sample inputs -/

/-- A signal to stand in the `signal` field of expressions that refer to none. -/
def no_signal : ivl_signal := ⟨0, 0, false, 0, .IVL_SIT_NONE⟩

/-- An expression of the given kind with every other attribute empty. -/
def blank_expr (t : ivl_expr_type_t) : ivl_expr :=
  { type_ := t, value_ := .IVL_VT_LOGIC, width := 0, signed_ := false, bits := [],
    signal := no_signal, oper1 := none, oper2 := none, parameter := none, string_ := "",
    event := 0, scope := 0, name := "", parms := [], file := "", lineno := 0 }

/-- The constant with the given bits (least significant first). -/
def number_expr (signed_ : Bool) (bits : List Char) : ivl_expr :=
  { blank_expr .IVL_EX_NUMBER with width := bits.length, signed_ := signed_, bits := bits }

/-- A signal expression that refers to the whole of `s`. -/
def signal_expr (s : ivl_signal) : ivl_expr :=
  { blank_expr .IVL_EX_SIGNAL with width := s.width, signed_ := s.signed_, signal := s }

/-- The part select `base[off +: wid]`. -/
def select_expr (base off : ivl_expr) (wid : Nat) : ivl_expr :=
  { blank_expr .IVL_EX_SELECT with width := wid, oper1 := some base, oper2 := some off }

/-- A binary expression of the given width over two operands. -/
def binary_expr (a b : ivl_expr) (wid : Nat) : ivl_expr :=
  { blank_expr .IVL_EX_BINARY with width := wid, oper1 := some a, oper2 := some b }

/-- A task call statement at file `f.v`, line 10. -/
def task_stmt (name : String) (parms : List ivl_expr) : ivl_statement :=
  ⟨parms, name, "f.v", 10⟩

/-- Collaborators for the sample runs: thread bits are handed out in
increasing order from the counter kept as state, `number_is_immediate`
accepts the constants whose bits from `lim_wid` up are all `'0'`, and every
file has index 2. -/
def sample_collab : Collab Nat where
  STUFF_OK_XZ := 1
  draw_eval_expr := fun ex _ next => (⟨next, ivl_expr_width ex⟩, next + ivl_expr_width ex)
  draw_eval_real := fun _ next => (next, next + 1)
  clr_vector := fun _ next => next
  clr_word := fun _ next => next
  allocate_vector := fun wid next => (next, next + wid)
  allocate_word := fun next => ((next : Int), next + 1)
  number_is_immediate := fun ex lim_wid =>
    (ivl_expr_type ex == .IVL_EX_NUMBER || ivl_expr_type ex == .IVL_EX_ULONG)
      && ((ivl_expr_bits ex).drop lim_wid).all (fun c => c == '0')
  get_number_immediate := fun ex => unsigned_value (ivl_expr_bits ex)
  ivl_file_table_index := fun _ => 2

/-- The world before a sample run: thread bits 0..7 are taken, nothing is logged. -/
def sample_world : World Nat := ⟨8, [], 0⟩

/-- An 8-bit unsigned variable `vec` at address 0x1000. -/
def sample_vec : ivl_signal := ⟨4096, 8, false, 0, .IVL_SIT_REG⟩

/-- A 3-bit unsigned variable `idx` at address 0x2000. -/
def sample_idx : ivl_signal := ⟨8192, 3, false, 0, .IVL_SIT_REG⟩

/-- The argument `vec[idx +: 4]`. -/
def indexed_select : ivl_expr :=
  select_expr (signal_expr sample_vec) (signal_expr sample_idx) 4

/-- The argument `vec[(idx + idx) +: 2]`. -/
def computed_select : ivl_expr :=
  select_expr (signal_expr sample_vec)
    (binary_expr (signal_expr sample_idx) (signal_expr sample_idx) 3) 2

/-- The signed 65-bit constant `2^63`: bit 63 set, sign bit clear. -/
def signed65_pos : ivl_expr := number_expr true (List.replicate 63 '0' ++ ['1', '0'])

/-- The signed 65-bit constant `-2^64`: only the sign bit set. -/
def signed65_neg : ivl_expr := number_expr true (List.replicate 64 '0' ++ ['1'])

/-- The unsigned 8-bit constant 128, `8'b10000000`. -/
def unsigned8_128 : ivl_expr := number_expr false (List.replicate 7 '0' ++ ['1'])

/-- The unsigned 33-bit constant `2^31`: bit 31 set, bit 32 clear. -/
def unsigned33_bit31 : ivl_expr := number_expr false (List.replicate 31 '0' ++ ['1', '0'])

/-- The unsigned 64-bit constant `2^64 - 1`: every bit set. -/
def unsigned64_ones : ivl_expr := number_expr false (List.replicate 64 '1')

/-- The unsigned 8-bit constant ten, `8'b00001010`. -/
def unsigned8_ten : ivl_expr := number_expr false ['0', '1', '0', '1', '0', '0', '0', '0']

/-- An array of 8-bit unsigned nets `mem` at address 0x3000. -/
def sample_net_array : ivl_signal := ⟨12288, 8, false, 1, .IVL_SIT_TRI⟩

/-- The word `mem[3]` of the net array. -/
def net_array_word : ivl_expr :=
  { signal_expr sample_net_array with oper1 := some (number_expr false ['1', '1']) }

/-- A reference to the scalar `vec` that carries the word index `idx`. -/
def scalar_with_index : ivl_expr :=
  { signal_expr sample_vec with oper1 := some (signal_expr sample_idx) }

/-- A reference to `vec` as a 4-bit value: narrower than the signal. -/
def narrow_signal_ref : ivl_expr :=
  { signal_expr sample_vec with width := 4 }

/-- A real-valued binary expression over two references to `idx`. -/
def real_binary : ivl_expr :=
  { binary_expr (signal_expr sample_idx) (signal_expr sample_idx) 1 with value_ := .IVL_VT_REAL }

/-- An array of 8-bit unsigned variables `regs` at address 0x4000. -/
def sample_reg_array : ivl_signal := ⟨16384, 8, false, 1, .IVL_SIT_REG⟩

/-- The word `regs[index]` of the variable array. -/
def reg_array_word (index : ivl_expr) : ivl_expr :=
  { signal_expr sample_reg_array with oper1 := some index }

/-- The argument `vec[2 +: 4]`, with the offset the unsigned 3-bit constant `3'b010`. -/
def constant_select : ivl_expr :=
  select_expr (signal_expr sample_vec) (number_expr false ['0', '1', '0']) 4

/-- A call of the system function `name` with the given arguments, of
32-bit logic value, at file `f.v`, line 10. -/
def sfunc_expr (name : String) (parms : List ivl_expr) : ivl_expr :=
  { blank_expr .IVL_EX_SFUNC with
    width := 32, name := name, parms := parms, file := "f.v", lineno := 10 }

/-- A call of `$random` whose value kind is `IVL_VT_VOID`. -/
def void_sfunc : ivl_expr :=
  { sfunc_expr "$random" [] with value_ := .IVL_VT_VOID }

/-- The call `$random(vec)` as a 32-bit function call. -/
def random_call : ivl_expr := sfunc_expr "$random" [signal_expr sample_vec]

/-- The call of `$random` on `vec` read as a 4-bit value, an argument that
has to be evaluated, as a 32-bit function call. -/
def random_of_narrow : ivl_expr := sfunc_expr "$random" [narrow_signal_ref]

/-- The call `$bitstoreal(8'b00001010)` as a real-valued function call. -/
def bitstoreal_call : ivl_expr :=
  { sfunc_expr "$bitstoreal" [unsigned8_ten] with value_ := .IVL_VT_REAL }

/-- The unsigned 8-bit constant `8'b0000000x`: bit 0 is unknown. -/
def unsigned8_x : ivl_expr := number_expr false ['x', '0', '0', '0', '0', '0', '0', '0']

/-! ## Resource accounting and part selects -/

/-- C1, at the task call `$display(vec[idx +: 4])` on a 64-bit target: the
lowering returns after one acquisition (the `draw_eval_expr` call on the
offset) and no release at all, so acquisitions and releases differ. -/
theorem indexed_select_acquires_without_release :
    ∃ w, draw_vpi_taskfunc_args lp64 sample_collab "    %vpi_call 2 10 \"$display\""
        (some (task_stmt "$display" [indexed_select])) none sample_world = .ok w
      ∧ acquisitions w.log = 1 ∧ releases w.log = 0 :=
  ⟨_, rfl, rfl, rfl⟩

/-- C2, at the argument `vec[(idx + idx) +: 2]`, whose offset is not a
constant: the offset is evaluated once and the token is built from the
vector `{base 8, wid 3}` that comes back, but the descriptor's `vec_flag`
stays clear, and the whole lowering ends without a `clr_vector` call. -/
theorem indexed_select_vector_not_owned :
    is_constant_number lp64 (binary_expr (signal_expr sample_idx) (signal_expr sample_idx) 3)
        = false
      ∧ (∃ w, classify_arg lp64 sample_collab computed_select sample_world
          = .ok (⟨"&PV<v0x1000_0, 8 3, 2>", false, ⟨0, 0⟩⟩, w))
      ∧ ∃ w, draw_vpi_taskfunc_args lp64 sample_collab "    %vpi_call 2 10 \"$display\""
          (some (task_stmt "$display" [computed_select])) none sample_world = .ok w
        ∧ w.log =
          [Event.draw_eval_expr
              (binary_expr (signal_expr sample_idx) (signal_expr sample_idx) 3) 1 ⟨8, 3⟩,
            Event.fprintf_vvp_out "    %vpi_call 2 10 \"$display\"",
            Event.fprintf_vvp_out ", &PV<v0x1000_0, 8 3, 2>",
            Event.fprintf_vvp_out ";\n"] :=
  ⟨rfl, ⟨_, rfl⟩, _, rfl, rfl⟩

/-! ## `is_constant_number` and `get_constant_number` -/

/-- C3, at the signed 65-bit constant `2^63` on a 64-bit target: its bits
are all binary and its value is above `LONG_MAX`, yet `is_constant_number`
accepts it. -/
theorem is_constant_number_accepts_unrepresentable :
    ivl_expr_type signed65_pos = .IVL_EX_NUMBER ∧ 1 ≤ ivl_expr_width signed65_pos
      ∧ all_binary (ivl_expr_bits signed65_pos)
      ∧ number_value signed65_pos = 9223372036854775808
      ∧ ¬ fits_long lp64 (number_value signed65_pos)
      ∧ is_constant_number lp64 signed65_pos = true := by
  refine ⟨rfl, by decide, by decide, by rfl, ?_, by decide⟩
  have h : number_value signed65_pos = 9223372036854775808 := by rfl
  rw [h]; decide

/-- C4, at the unsigned 8-bit constant 128 (`8'b10000000`), which
`is_constant_number` accepts: where `long` is 32 bits `get_constant_number`
returns -128, because positions 8 and up are filled with the top source bit
although the constant is unsigned; where `long` is 64 bits the same fill
shifts the `int` 1 by 32 and more, and with the shift count taken modulo 32
every bit of the result is set: the value returned is -1. -/
theorem get_constant_number_unsigned_msb :
    all_binary (ivl_expr_bits unsigned8_128) ∧ ivl_expr_signed unsigned8_128 = false
      ∧ number_value unsigned8_128 = 128
      ∧ is_constant_number ilp32 unsigned8_128 = true
      ∧ get_constant_number ilp32 unsigned8_128 = .ok (-128)
      ∧ is_constant_number lp64 unsigned8_128 = true
      ∧ get_constant_number lp64 unsigned8_128 = .ok (-1) := by
  refine ⟨by decide, rfl, by decide, by decide, by decide, by decide, by decide⟩

/-- C5, at the unsigned 33-bit constant `2^31` on a 64-bit target: source
bit 32 is `'0'`, and so is the top source bit that pads positions 33 and up,
but the result is `-2^31`, whose bits 32 to 63 are all set: `1 << 31` is
the `int` `INT_MIN`, which is sign-extended when it is or-ed into the `long`. -/
theorem get_constant_number_bit31_sign_extends :
    all_binary (ivl_expr_bits unsigned33_bit31)
      ∧ char_at (ivl_expr_bits unsigned33_bit31) 32 = '0'
      ∧ get_constant_number lp64 unsigned33_bit31 = .ok (-2147483648)
      ∧ (List.range' 32 32).all (fun i => long_bit 64 (-2147483648) i) = true := by
  refine ⟨by decide, by decide, by decide, by decide⟩

/-- C6, at the signed 65-bit constant `-2^64` on a 64-bit target: the
sign bit, and so the pad bit, is `'1'` and the bit at index 63 is `'0'`, so
the pad-extension condition fails at index 63, yet `is_constant_number`
returns true. -/
theorem is_constant_number_skips_bit_below_limit :
    ivl_expr_type signed65_neg = .IVL_EX_NUMBER ∧ ivl_expr_signed signed65_neg = true
      ∧ ivl_expr_width signed65_neg = 65
      ∧ char_at (ivl_expr_bits signed65_neg) (ivl_expr_width signed65_neg - 1) = '1'
      ∧ 8 * lp64.sizeof_long - 1 = 63
      ∧ char_at (ivl_expr_bits signed65_neg) 63 = '0'
      ∧ is_constant_number lp64 signed65_neg = true := by
  refine ⟨rfl, rfl, by decide, by decide, by decide, by decide, by decide⟩

/-- C7 as stated fails at the unsigned 64-bit constant `2^64 - 1` on a
64-bit target: its width is the native width, and `is_constant_number`
returns false. -/
theorem is_constant_number_rejects_native_width_unsigned :
    ivl_expr_type unsigned64_ones = .IVL_EX_NUMBER ∧ ivl_expr_signed unsigned64_ones = false
      ∧ 1 ≤ ivl_expr_width unsigned64_ones
      ∧ ivl_expr_width unsigned64_ones ≤ 8 * lp64.sizeof_long
      ∧ is_constant_number lp64 unsigned64_ones = false := by
  refine ⟨rfl, rfl, by decide, by decide, by decide⟩

/-- C7, amended: a constant of width at least 1 and at most `W - 1`
(`W = 8*sizeof(long)`), signed or unsigned, is accepted by
`is_constant_number`; so is an unsigned constant of width exactly `W`
when its most significant bit `bits[W-1]` is `'0'`. -/
theorem is_constant_number_of_narrow (T : Target) (ex : ivl_expr)
    (htype : ivl_expr_type ex = .IVL_EX_NUMBER)
    (hpos : 1 ≤ ivl_expr_width ex)
    (hsigned : ivl_expr_signed ex = true → ivl_expr_width ex ≤ 8 * T.sizeof_long - 1)
    (hunsigned : ivl_expr_signed ex = false → ivl_expr_width ex ≤ 8 * T.sizeof_long)
    (hmsb : ivl_expr_signed ex = false → ivl_expr_width ex = 8 * T.sizeof_long →
      char_at (ivl_expr_bits ex) (8 * T.sizeof_long - 1) = '0') :
    is_constant_number T ex = true := by
  unfold is_constant_number
  simp only [htype]
  cases hs : ivl_expr_signed ex with
  | true =>
    have h := hsigned hs
    have h0 : ivl_expr_width ex - 8 * T.sizeof_long = 0 := by omega
    simp [h0]
  | false =>
    have h := hunsigned hs
    by_cases hw : ivl_expr_width ex = 8 * T.sizeof_long
    · have hb := hmsb hs hw
      have h1 : ivl_expr_width ex - (8 * T.sizeof_long - 1) = 1 := by omega
      simp [h1, hb]
    · have h0 : ivl_expr_width ex - (8 * T.sizeof_long - 1) = 0 := by omega
      simp [h0]

/-- The amended C7 at the unsigned 64-bit constant with only bit 0 set, on
a 64-bit target. -/
theorem is_constant_number_of_narrow_witness :
    ivl_expr_width (number_expr false ('1' :: List.replicate 63 '0')) = 8 * lp64.sizeof_long
      ∧ char_at (ivl_expr_bits (number_expr false ('1' :: List.replicate 63 '0'))) 63 = '0'
      ∧ is_constant_number lp64 (number_expr false ('1' :: List.replicate 63 '0')) = true :=
  ⟨by decide, by decide,
    is_constant_number_of_narrow lp64 (number_expr false ('1' :: List.replicate 63 '0'))
      rfl (by decide) (by decide) (by decide) (by decide)⟩


/-! ## What the two loops add to the log -/

/-- The text of two logs in sequence is the concatenation of their texts. -/
theorem vvp_text_append (a b : List Event) : vvp_text (a ++ b) = vvp_text a ++ vvp_text b := by
  induction a with
  | nil => simp [vvp_text]
  | cons e rest ih =>
    cases e <;> simp [vvp_text, ih, String.append_assoc]

/-- An evaluated argument logs exactly one acquisition and nothing else,
and its descriptor owns the result. -/
theorem classify_eval_log {σ : Type} (C : Collab σ) (expr : ivl_expr) (w w1 : World σ)
    (a : args_info) (h : classify_eval C expr w = .ok (a, w1)) :
    ∃ evs, w1.log = w.log ++ evs ∧ vvp_text evs = "" ∧ releases evs = 0
      ∧ acquisitions evs = 1 ∧ a.vec_flag = true ∧ w1.vvp_errors = w.vvp_errors := by
  unfold classify_eval at h
  split at h
  · simp only [Except.ok.injEq, Prod.mk.injEq] at h
    obtain ⟨rfl, rfl⟩ := h
    exact ⟨_, rfl, rfl, rfl, rfl, rfl, rfl⟩
  · simp only [Except.ok.injEq, Prod.mk.injEq] at h
    obtain ⟨rfl, rfl⟩ := h
    exact ⟨_, rfl, rfl, rfl, rfl, rfl, rfl⟩
  · simp only [Except.ok.injEq, Prod.mk.injEq] at h
    obtain ⟨rfl, rfl⟩ := h
    exact ⟨_, rfl, rfl, rfl, rfl, rfl, rfl⟩
  · cases h


/-- An argument handled by the first switch logs no text and no release;
it logs one acquisition when its descriptor owns a vector, and one more
when it is an indexed part select. -/
theorem classify_direct_log {σ : Type} (T : Target) (C : Collab σ) (expr : ivl_expr)
    (w w1 : World σ) (a : args_info)
    (h : classify_direct T C expr w = .ok (some (a, w1))) :
    ∃ evs, w1.log = w.log ++ evs ∧ vvp_text evs = "" ∧ releases evs = 0
      ∧ acquisitions evs
          = (if a.vec_flag then 1 else 0) + (if is_indexed_select T expr then 1 else 0)
      ∧ w1.vvp_errors = w.vvp_errors := by
  unfold classify_direct at h
  cases ht : ivl_expr_type expr <;> simp only [ht] at h
  case IVL_EX_SELECT =>
    unfold is_indexed_select
    simp only [ht]
    cases h1 : ivl_expr_oper1 expr with
    | none => simp only [h1] at h; cases h
    | some vexpr =>
      simp only [h1] at h
      split at h
      · cases h
      · split at h
        · cases h
        · cases h2 : ivl_expr_oper2 expr with
          | none => simp only [h2] at h; cases h
          | some bexpr =>
            simp only [h2] at h
            rename_i hv1 hv2
            split at h
            · rename_i hc
              split at h
              · cases h
              · simp only [Except.ok.injEq, Option.some.injEq, Prod.mk.injEq] at h
                obtain ⟨rfl, rfl⟩ := h
                refine ⟨[], by simp, rfl, rfl, ?_, rfl⟩
                simp [hc, text_only, acquisitions]
            · rename_i hc
              simp only [Except.ok.injEq, Option.some.injEq, Prod.mk.injEq] at h
              obtain ⟨rfl, rfl⟩ := h
              refine ⟨_, rfl, rfl, rfl, ?_, rfl⟩
              simp only [ne_eq, Decidable.not_not] at hv1
              simp only [Option.isSome_iff_exists, not_exists] at hv2
              have hn : (ivl_expr_oper1 vexpr).isNone = true := by
                cases h3 : ivl_expr_oper1 vexpr with
                | none => rfl
                | some x => exact absurd h3 (hv2 x)
              simp [hc, hv1, hn, text_only, acquisitions, Event.is_acquire]
  all_goals (
    have hsel : is_indexed_select T expr = false := by
      unfold is_indexed_select; simp only [ht]
    rw [hsel]
    repeat' (split at h)
    all_goals (first | (cases h; done) | skip)
    all_goals (
      simp only [Except.ok.injEq, Option.some.injEq, Prod.mk.injEq] at h
      obtain ⟨rfl, rfl⟩ := h
      first
      | (refine ⟨[], ?_, rfl, rfl, ?_, rfl⟩
         · simp
         · simp [text_only, acquisitions])
      | (refine ⟨_, rfl, rfl, rfl, ?_, rfl⟩
         simp [acquisitions, Event.is_acquire])))


/-- An argument that the first switch leaves to be evaluated is not an
indexed part select. -/
theorem classify_direct_break {σ : Type} (T : Target) (C : Collab σ) (expr : ivl_expr)
    (w : World σ) (h : classify_direct T C expr w = .ok none) :
    is_indexed_select T expr = false := by
  unfold classify_direct at h
  unfold is_indexed_select
  cases ht : ivl_expr_type expr <;> simp only [ht] at h ⊢
  cases h1 : ivl_expr_oper1 expr with
  | none => rfl
  | some vexpr =>
    cases h2 : ivl_expr_oper2 expr with
    | none => rfl
    | some bexpr =>
      simp only [h1, h2] at h ⊢
      split at h
      · rename_i hv; simp [hv]
      · split at h
        · rename_i hv
          cases h3 : ivl_expr_oper1 vexpr with
          | none => simp [h3] at hv
          | some x => simp
        · split at h
          · split at h <;> cases h
          · cases h

/-- What one pass of the classification loop adds to the log. -/
theorem classify_arg_log {σ : Type} (T : Target) (C : Collab σ) (expr : ivl_expr)
    (w w1 : World σ) (a : args_info) (h : classify_arg T C expr w = .ok (a, w1)) :
    ∃ evs, w1.log = w.log ++ evs ∧ vvp_text evs = "" ∧ releases evs = 0
      ∧ acquisitions evs
          = (if a.vec_flag then 1 else 0) + (if is_indexed_select T expr then 1 else 0)
      ∧ w1.vvp_errors = w.vvp_errors := by
  unfold classify_arg at h
  split at h
  · cases h
  · rename_i r hd
    cases h
    exact classify_direct_log T C expr w w1 a hd
  · rename_i hd
    obtain ⟨evs, h1, h2, h3, h4, h5, h6⟩ := classify_eval_log C expr w w1 a h
    refine ⟨evs, h1, h2, h3, ?_, h6⟩
    simp [h4, h5, classify_direct_break T C expr w hd]

/-- Acquisitions add up over consecutive logs. -/
theorem acquisitions_append (a b : List Event) :
    acquisitions (a ++ b) = acquisitions a + acquisitions b := by
  simp [acquisitions]

/-- Releases add up over consecutive logs. -/
theorem releases_append (a b : List Event) :
    releases (a ++ b) = releases a + releases b := by
  simp [releases]

/-- What the classification loop adds to the log, and that it fills one
descriptor per argument. -/
theorem classify_args_log {σ : Type} (T : Target) (C : Collab σ) (parms : List ivl_expr) :
    ∀ (w w1 : World σ) (args : List args_info),
      classify_args T C parms w = .ok (args, w1) →
      ∃ evs, w1.log = w.log ++ evs ∧ vvp_text evs = "" ∧ releases evs = 0
        ∧ acquisitions evs
            = args.countP (fun a => a.vec_flag) + parms.countP (is_indexed_select T)
        ∧ w1.vvp_errors = w.vvp_errors ∧ args.length = parms.length := by
  induction parms with
  | nil =>
    intro w w1 args h
    simp only [classify_args, Except.ok.injEq, Prod.mk.injEq] at h
    obtain ⟨rfl, rfl⟩ := h
    exact ⟨[], by simp, rfl, rfl, rfl, rfl, rfl⟩
  | cons expr rest ih =>
    intro w w1 args h
    simp only [classify_args] at h
    split at h
    · cases h
    · rename_i a wa ha
      split at h
      · cases h
      · rename_i as wb hb
        simp only [Except.ok.injEq, Prod.mk.injEq] at h
        obtain ⟨rfl, rfl⟩ := h
        obtain ⟨e1, p1, p2, p3, p4, p5⟩ := classify_arg_log T C expr w wa a ha
        obtain ⟨e2, q1, q2, q3, q4, q5, q6⟩ := ih wa wb as hb
        refine ⟨e1 ++ e2, ?_, ?_, ?_, ?_, ?_, ?_⟩
        · rw [q1, p1, List.append_assoc]
        · rw [vvp_text_append, p2, q2]; rfl
        · rw [releases_append, p3, q3]
        · rw [acquisitions_append, p4, q4, List.countP_cons, List.countP_cons]
          omega
        · rw [q5, p5]
        · simp [q6]

/-- One pass of the second loop writes the operand and then releases the
vector of the descriptor, if it owns one. -/
theorem emit_arg_log {σ : Type} (C : Collab σ) (a : args_info) (w : World σ) :
    ∃ evs, (emit_arg C a w).log = w.log ++ Event.fprintf_vvp_out (", " ++ a.text) :: evs
      ∧ vvp_text evs = "" ∧ acquisitions evs = 0
      ∧ releases evs = (if a.vec_flag then 1 else 0)
      ∧ (emit_arg C a w).vvp_errors = w.vvp_errors := by
  unfold emit_arg
  cases hf : a.vec_flag with
  | false => exact ⟨[], by simp [fprintf_vvp_out], rfl, rfl, by simp [releases], rfl⟩
  | true =>
    by_cases hw : a.vec.wid > 0
    · refine ⟨[Event.clr_vector a.vec], ?_, rfl, rfl, rfl, ?_⟩ <;>
        simp [hw, fprintf_vvp_out, call_clr_vector]
    · refine ⟨[Event.clr_word a.vec.base], ?_, rfl, rfl, rfl, ?_⟩ <;>
        simp [hw, fprintf_vvp_out, call_clr_word]

/-- What the second loop adds to the log. -/
theorem emit_args_log {σ : Type} (C : Collab σ) (args : List args_info) :
    ∀ (w : World σ), ∃ evs, (emit_args C args w).log = w.log ++ evs
      ∧ vvp_text evs = operand_list (args.map (fun a => a.text))
      ∧ acquisitions evs = 0
      ∧ releases evs = args.countP (fun a => a.vec_flag)
      ∧ (emit_args C args w).vvp_errors = w.vvp_errors := by
  induction args with
  | nil => intro w; exact ⟨[], by simp [emit_args], rfl, rfl, rfl, rfl⟩
  | cons a rest ih =>
    intro w
    obtain ⟨e1, p1, p2, p3, p4, p5⟩ := emit_arg_log C a w
    obtain ⟨e2, q1, q2, q3, q4, q5⟩ := ih (emit_arg C a w)
    refine ⟨Event.fprintf_vvp_out (", " ++ a.text) :: e1 ++ e2, ?_, ?_, ?_, ?_, ?_⟩
    · simp only [emit_args]; rw [q1, p1]; simp
    · rw [vvp_text_append]
      simp only [vvp_text, p2, q2, List.map_cons, operand_list]
      simp [String.append_assoc]
    · have : acquisitions (Event.fprintf_vvp_out (", " ++ a.text) :: e1) = acquisitions e1 := by
        simp [acquisitions, Event.is_acquire]
      rw [acquisitions_append, q3, this, p3]
    · rw [releases_append, q4, List.countP_cons]
      have : releases (Event.fprintf_vvp_out (", " ++ a.text) :: e1) = releases e1 := by
        simp [releases, Event.is_release]
      rw [this, p4]; omega
    · simp only [emit_args]; rw [q5, p5]


/-- Every descriptor that the classification loop fills is the
classifier's result for the argument at the same position. -/
theorem classify_args_each {σ : Type} (T : Target) (C : Collab σ) (parms : List ivl_expr) :
    ∀ (w w1 : World σ) (args : List args_info),
      classify_args T C parms w = .ok (args, w1) →
      ∀ (i : Nat) (expr : ivl_expr), parms[i]? = some expr →
        ∃ a wi wj, args[i]? = some a ∧ classify_arg T C expr wi = .ok (a, wj) := by
  induction parms with
  | nil => intro w w1 args _ i expr hi; simp at hi
  | cons e rest ih =>
    intro w w1 args h i expr hi
    simp only [classify_args] at h
    split at h
    · cases h
    · rename_i a wa ha
      split at h
      · cases h
      · rename_i as wb hb
        simp only [Except.ok.injEq, Prod.mk.injEq] at h
        obtain ⟨rfl, rfl⟩ := h
        cases i with
        | zero =>
          simp only [List.getElem?_cons_zero, Option.some.injEq] at hi
          subst hi
          exact ⟨a, w, wa, by simp, ha⟩
        | succ j =>
          simp only [List.getElem?_cons_succ] at hi
          obtain ⟨a', wi, wj, h1, h2⟩ := ih wa wb as hb j expr hi
          exact ⟨a', wi, wj, by simpa using h1, h2⟩

/-- Resource accounting of one lowering: what it acquires is what it
releases plus one vector for every indexed part select among the arguments. -/
theorem taskfunc_args_accounting {σ : Type} (T : Target) (C : Collab σ) (call_string : String)
    (tnet : Option ivl_statement) (fnet : Option ivl_expr) (w w1 : World σ)
    (h : draw_vpi_taskfunc_args T C call_string tnet fnet w = .ok w1) :
    ∃ parms evs, call_parms tnet fnet = .ok parms ∧ w1.log = w.log ++ evs
      ∧ acquisitions evs = releases evs + parms.countP (is_indexed_select T) := by
  unfold draw_vpi_taskfunc_args at h
  split at h
  · cases h
  · rename_i ps hps
    split at h
    · cases h
    · rename_i args wa ha
      simp only [Except.ok.injEq] at h
      subst h
      obtain ⟨e1, p1, p2, p3, p4, p5, p6⟩ := classify_args_log T C ps w wa args ha
      obtain ⟨e2, q1, q2, q3, q4, q5⟩ := emit_args_log C args (fprintf_vvp_out call_string wa)
      refine ⟨ps, e1 ++ (Event.fprintf_vvp_out call_string :: e2)
        ++ [Event.fprintf_vvp_out ";\n"], hps, ?_, ?_⟩
      · simp only [fprintf_vvp_out] at q1 ⊢
        rw [q1, p1]; simp
      · have ha1 : acquisitions (Event.fprintf_vvp_out call_string :: e2) = acquisitions e2 := by
          simp [acquisitions, Event.is_acquire]
        have hr1 : releases (Event.fprintf_vvp_out call_string :: e2) = releases e2 := by
          simp [releases, Event.is_release]
        have ha2 : acquisitions [Event.fprintf_vvp_out ";\n"] = 0 := rfl
        have hr2 : releases [Event.fprintf_vvp_out ";\n"] = 0 := rfl
        rw [acquisitions_append, acquisitions_append, releases_append, releases_append,
          ha1, hr1, ha2, hr2, p3, p4, q3, q4]
        omega

/-! ## The emitted text and the tokens -/

/-- C8: when the classification does not abort, what one lowering writes
to the output is the call string, then `", "` and the token of each
argument in the order of the arguments, then `";\n"`; there is one token
per argument, and the i-th token is the one the classifier gives for the
i-th argument. -/
theorem taskfunc_args_text {σ : Type} (T : Target) (C : Collab σ) (call_string : String)
    (tnet : Option ivl_statement) (fnet : Option ivl_expr) (w w1 : World σ)
    (h : draw_vpi_taskfunc_args T C call_string tnet fnet w = .ok w1) :
    ∃ (parms : List ivl_expr) (args : List args_info) (evs : List Event), call_parms tnet fnet = .ok parms
      ∧ args.length = parms.length
      ∧ (∀ (i : Nat) (expr : ivl_expr), parms[i]? = some expr →
          ∃ a wi wj, args[i]? = some a ∧ classify_arg T C expr wi = .ok (a, wj))
      ∧ w1.log = w.log ++ evs
      ∧ vvp_text evs
          = call_string ++ operand_list (args.map (fun a => a.text)) ++ ";\n" := by
  unfold draw_vpi_taskfunc_args at h
  split at h
  · cases h
  · rename_i ps hps
    split at h
    · cases h
    · rename_i args wa ha
      simp only [Except.ok.injEq] at h
      subst h
      obtain ⟨e1, p1, p2, p3, p4, p5, p6⟩ := classify_args_log T C ps w wa args ha
      obtain ⟨e2, q1, q2, q3, q4, q5⟩ := emit_args_log C args (fprintf_vvp_out call_string wa)
      refine ⟨ps, args, e1 ++ (Event.fprintf_vvp_out call_string :: e2)
        ++ [Event.fprintf_vvp_out ";\n"], hps, p6,
        classify_args_each T C ps w wa args ha, ?_, ?_⟩
      · simp only [fprintf_vvp_out] at q1 ⊢
        rw [q1, p1]; simp
      · rw [vvp_text_append, vvp_text_append, p2]
        simp only [vvp_text, q2]
        simp [String.append_assoc]

/-- C8 at the call `$display(8'b00001010, vec, vec[idx +: 4])`. -/
theorem taskfunc_args_text_witness :
    ∃ w1, draw_vpi_taskfunc_args lp64 sample_collab "    %vpi_call 2 10 \"$display\""
        (some (task_stmt "$display" [unsigned8_ten, signal_expr sample_vec, indexed_select]))
        none sample_world = .ok w1
      ∧ vvp_text w1.log
        = "    %vpi_call 2 10 \"$display\", 8'b00001010, v0x1000_0, &PV<v0x1000_0, 8 3, 4>;\n"
      ∧ ∃ (parms : List ivl_expr) (args : List args_info) (evs : List Event),
        call_parms (some (task_stmt "$display"
            [unsigned8_ten, signal_expr sample_vec, indexed_select])) none = .ok parms
        ∧ args.length = parms.length
        ∧ (∀ (i : Nat) (expr : ivl_expr), parms[i]? = some expr →
            ∃ a wi wj, args[i]? = some a
              ∧ classify_arg lp64 sample_collab expr wi = .ok (a, wj))
        ∧ w1.log = sample_world.log ++ evs
        ∧ vvp_text evs = "    %vpi_call 2 10 \"$display\""
            ++ operand_list (args.map (fun a => a.text)) ++ ";\n" :=
  ⟨_, rfl, rfl, taskfunc_args_text lp64 sample_collab _ _ _ sample_world _ rfl⟩


/-- The copy loop started at `n` writes the low `n` bits, highest first. -/
theorem copy_bits_take (bits : List Char) :
    ∀ n, n ≤ bits.length → copy_bits bits n = (bits.take n).reverse := by
  intro n
  induction n with
  | zero => intro _; simp [copy_bits]
  | succ k ih =>
    intro hk
    have hlt : k < bits.length := hk
    have htake : List.take (k + 1) bits = List.take k bits ++ [bits[k]] := by
      rw [List.take_succ, List.getElem?_eq_getElem hlt]; rfl
    have hchar : char_at bits k = bits[k] := by
      simp [char_at, List.getD, List.getElem?_eq_getElem hlt]
    rw [copy_bits, ih (Nat.le_of_lt hlt), htake, hchar, List.reverse_append]
    rfl

/-- C9: a constant argument whose token fits the buffer is lowered to the
decimal width, `'`, `s` when the expression is signed, `b`, and then the
stored bits from the most significant to the least significant, each
character as it is stored; the world is left as it was (no evaluator call)
and the descriptor holds no vector. -/
theorem number_token {σ : Type} (T : Target) (C : Collab σ) (expr : ivl_expr) (w : World σ)
    (htype : ivl_expr_type expr = .IVL_EX_NUMBER)
    (hbits : (ivl_expr_bits expr).length = ivl_expr_width expr)
    (hfit : (toString (ivl_expr_width expr) ++ "'"
        ++ (if ivl_expr_signed expr then "s" else "") ++ "b").length
        + ivl_expr_width expr + 1 ≤ sizeof_buffer) :
    classify_arg T C expr w
      = .ok (⟨toString (ivl_expr_width expr) ++ "'"
          ++ (if ivl_expr_signed expr then "s" else "") ++ "b"
          ++ String.mk (ivl_expr_bits expr).reverse, false, ⟨0, 0⟩⟩, w) := by
  unfold classify_arg classify_direct
  simp only [htype]
  rw [if_pos hfit]
  simp only [text_only]
  rw [copy_bits_take _ _ (Nat.le_of_eq hbits.symm), ← hbits, List.take_length]

/-- C9 at the 8-bit unsigned constant ten: the token is `8'b00001010`. -/
theorem number_token_witness :
    ivl_expr_type unsigned8_ten = .IVL_EX_NUMBER
      ∧ ivl_expr_bits unsigned8_ten = ['0', '1', '0', '1', '0', '0', '0', '0']
      ∧ classify_arg lp64 sample_collab unsigned8_ten sample_world
        = .ok (⟨"8'b00001010", false, ⟨0, 0⟩⟩, sample_world) :=
  ⟨rfl, rfl, number_token lp64 sample_collab unsigned8_ten sample_world rfl rfl (by decide)⟩


/-- C10 as stated fails at a reference to a signal without array
dimension that carries an index expression which is not an immediate
number: `is_fixed_memory_word` holds, width and signedness match, and the
argument is evaluated into a vector that the descriptor owns. -/
theorem fixed_word_with_index_is_evaluated :
    ivl_expr_type scalar_with_index = .IVL_EX_SIGNAL
      ∧ ivl_expr_width scalar_with_index = ivl_signal_width (ivl_expr_signal scalar_with_index)
      ∧ ivl_expr_signed scalar_with_index
          = ivl_signal_signed (ivl_expr_signal scalar_with_index)
      ∧ is_fixed_memory_word lp64 sample_collab scalar_with_index = .ok true
      ∧ classify_arg lp64 sample_collab scalar_with_index sample_world
        = .ok (⟨"T<8,8,u>", true, ⟨8, 8⟩⟩,
            ⟨16, [Event.draw_eval_expr scalar_with_index 0 ⟨8, 8⟩], 0⟩) :=
  ⟨rfl, rfl, rfl, rfl, rfl⟩

/-- C10, amended: a signal reference whose width and signedness match the
signal, for which `is_fixed_memory_word` holds and whose index expression
is absent or an immediate number, is lowered to the handle `v<sig>_<word>`,
where `word` is 0 without index expression and otherwise the immediate
index value held in the `unsigned` `use_word`; the world is left as it was
(no evaluator call) and the descriptor holds no vector. -/
theorem fixed_word_handle {σ : Type} (T : Target) (C : Collab σ) (expr : ivl_expr)
    (w : World σ)
    (htype : ivl_expr_type expr = .IVL_EX_SIGNAL)
    (hwidth : ivl_expr_width expr = ivl_signal_width (ivl_expr_signal expr))
    (hsigned : ivl_expr_signed expr = ivl_signal_signed (ivl_expr_signal expr))
    (hfixed : is_fixed_memory_word T C expr = .ok true)
    (himm : ∀ word, ivl_expr_oper1 expr = some word →
      C.number_is_immediate word (8 * T.sizeof_int) = true) :
    classify_arg T C expr w
      = .ok (⟨"v" ++ T.fmt_p (ivl_expr_signal expr).addr ++ "_"
          ++ toString (match ivl_expr_oper1 expr with
              | none => 0
              | some word => C.get_number_immediate word % 2 ^ (8 * T.sizeof_int)),
          false, ⟨0, 0⟩⟩, w) := by
  unfold classify_arg classify_direct
  simp only [htype, hwidth, hsigned, hfixed, ne_eq, not_true_eq_false, if_false]
  unfold resolve_word
  cases h1 : ivl_expr_oper1 expr with
  | none => simp [text_only]
  | some word => simp [himm word h1, text_only]

/-- The amended C10 at `mem[3]`, a word of a net array: the token is `v0x3000_3`. -/
theorem fixed_word_handle_witness :
    is_fixed_memory_word lp64 sample_collab net_array_word = .ok true
      ∧ classify_arg lp64 sample_collab net_array_word sample_world
        = .ok (⟨"v0x3000_3", false, ⟨0, 0⟩⟩, sample_world) :=
  ⟨rfl, fixed_word_handle lp64 sample_collab net_array_word sample_world rfl rfl rfl rfl
    (by intro word h; cases h; rfl)⟩


/-! ## Where the constant functions are right -/

/-- Reading a pattern in two's complement and writing it back gives the
low `w` bits again. -/
theorem to_pattern_to_signed (w n : Nat) : to_pattern w (to_signed w n) = n % 2 ^ w := by
  unfold to_pattern to_signed
  have hpos : 0 < 2 ^ w := Nat.two_pow_pos w
  have hlt : n % 2 ^ w < 2 ^ w := Nat.mod_lt _ hpos
  split
  · rw [← Int.natCast_mod, Int.toNat_ofNat, Nat.mod_mod]
  · rw [Int.sub_emod, Int.emod_self, sub_zero, Int.emod_emod_of_dvd _ (dvd_refl _),
      ← Int.natCast_mod, Int.toNat_ofNat, Nat.mod_mod]


/-- The bit that the loop of `get_constant_number` reads at position `idx`
is binary when the stored bits are. -/
theorem effective_bit_binary (bits : List Char) (nbits : Nat) (hlen : bits.length = nbits)
    (hpos : 1 ≤ nbits) (hbin : all_binary bits) (idx : Nat) :
    (if idx < nbits then char_at bits idx else char_at bits (nbits - 1)) = '0'
      ∨ (if idx < nbits then char_at bits idx else char_at bits (nbits - 1)) = '1' := by
  have hmem : ∀ j, j < nbits → char_at bits j = '0' ∨ char_at bits j = '1' := by
    intro j hj
    have hj' : j < bits.length := by omega
    have : char_at bits j = bits[j] := by
      simp [char_at, List.getD, List.getElem?_eq_getElem hj']
    rw [this]
    exact hbin _ (List.getElem_mem hj')
  split
  · rename_i h; exact hmem idx h
  · exact hmem (nbits - 1) (by omega)

/-- The loop of `get_constant_number` after `k` passes, where `long` is as
wide as `int`: no fault, and bit `i` of `rtn` is set exactly when `i < k`
and the bit read at `i` is `'1'`. -/
theorem get_constant_number_fold (T : Target) (bits : List Char) (nbits : Nat)
    (hT : T.sizeof_long = T.sizeof_int) (hlen : bits.length = nbits) (hpos : 1 ≤ nbits)
    (hbin : all_binary bits) :
    ∀ k, k ≤ 8 * T.sizeof_long →
      ∃ rtn, (List.range k).foldlM
          (get_constant_number_step T bits nbits (char_at bits (nbits - 1))) 0 = .ok rtn
        ∧ rtn < 2 ^ k
        ∧ ∀ i, rtn.testBit i = (decide (i < k)
            && decide ((if i < nbits then char_at bits i else char_at bits (nbits - 1)) = '1')) := by
  intro k
  induction k with
  | zero =>
    intro _
    refine ⟨0, rfl, by simp, ?_⟩
    intro i; simp
  | succ k ih =>
    intro hk
    obtain ⟨r, hr, hlt, hbits⟩ := ih (by omega)
    rw [List.range_succ, List.foldlM_append, hr]
    have hkint : k < 8 * T.sizeof_int := by omega
    have hshl : int_shl1 T k = to_signed (8 * T.sizeof_int) (2 ^ k) := by
      simp [int_shl1, hkint]
    have hpat : to_pattern (8 * T.sizeof_long) (to_signed (8 * T.sizeof_int) (2 ^ k)) = 2 ^ k := by
      rw [← hT, to_pattern_to_signed]
      exact Nat.mod_eq_of_lt (Nat.pow_lt_pow_right (by decide) (by omega))
    rcases effective_bit_binary bits nbits hlen hpos hbin k with h0 | h1
    · refine ⟨r, ?_, by
        calc r < 2 ^ k := hlt
          _ < 2 ^ (k + 1) := Nat.pow_lt_pow_right (by decide) (by omega), ?_⟩
      · simp [get_constant_number_step, h0, pure, Except.pure, bind, Except.bind]
      · intro i
        rw [hbits i]
        by_cases hik : i = k
        · subst hik; simp [h0]
        · have : (i < k + 1) = (i < k) := by
            apply propext; omega
          simp [this]
    · refine ⟨r ||| 2 ^ k, ?_, ?_, ?_⟩
      · simp [get_constant_number_step, h1, hshl, hpat, pure, Except.pure, bind, Except.bind]
      · exact Nat.or_lt_two_pow (lt_trans hlt (Nat.pow_lt_pow_right (by decide) (by omega)))
          (Nat.pow_lt_pow_right (by decide) (by omega))
      · intro i
        rw [Nat.testBit_lor, hbits i, Nat.testBit_two_pow]
        by_cases hik : i = k
        · subst hik; simp [h1]
        · have : (i < k + 1) = (i < k) := by
            apply propext; omega
          have hki : ¬ k = i := fun h => hik h.symm
          simp [this, hki]

/-- Where `long` is as wide as `int`, `get_constant_number` returns for
every constant of binary bits the `long` whose bit `i` is set exactly when
the source bit at `i` is `'1'` for `i` below the width, and when the top
source bit is `'1'` from the width up. -/
theorem get_constant_number_bits_of_equal_width (T : Target) (ex : ivl_expr)
    (hT : T.sizeof_long = T.sizeof_int)
    (htype : ivl_expr_type ex = .IVL_EX_NUMBER)
    (hlen : (ivl_expr_bits ex).length = ivl_expr_width ex)
    (hpos : 1 ≤ ivl_expr_width ex)
    (hbin : all_binary (ivl_expr_bits ex)) :
    ∃ v, get_constant_number T ex = .ok v
      ∧ ∀ i, i < 8 * T.sizeof_long →
        long_bit (8 * T.sizeof_long) v i
          = decide ((if i < ivl_expr_width ex then char_at (ivl_expr_bits ex) i
              else char_at (ivl_expr_bits ex) (ivl_expr_width ex - 1)) = '1') := by
  obtain ⟨r, hr, hlt, hbits⟩ :=
    get_constant_number_fold T (ivl_expr_bits ex) (ivl_expr_width ex) hT hlen hpos hbin
      (8 * T.sizeof_long) (le_refl _)
  refine ⟨to_signed (8 * T.sizeof_long) r, ?_, ?_⟩
  · unfold get_constant_number
    simp only [htype]
    rw [hr]
  · intro i hi
    unfold long_bit
    rw [to_pattern_to_signed, Nat.mod_eq_of_lt hlt, hbits i]
    simp [hi]


/-- A binary bit string is below `2^lim` exactly when its bits from `lim` up are `'0'`. -/
theorem unsigned_value_lt_iff (bits : List Char) (hbin : all_binary bits) :
    ∀ lim, unsigned_value bits < 2 ^ lim
      ↔ ∀ idx, lim ≤ idx → idx < bits.length → char_at bits idx = '0' := by
  induction bits with
  | nil => intro lim; simp [unsigned_value]
  | cons c cs ih =>
    have hcs : all_binary cs := fun x hx => hbin x (List.mem_cons_of_mem _ hx)
    have hc : c = '0' ∨ c = '1' := hbin c (List.mem_cons_self _ _)
    intro lim
    cases lim with
    | zero =>
      have h0 := ih hcs 0
      simp only [pow_zero, Nat.lt_one_iff, zero_le, true_implies] at h0 ⊢
      constructor
      · intro h idx hidx
        simp only [unsigned_value] at h
        have hv : unsigned_value cs = 0 := by omega
        cases idx with
        | zero =>
          rcases hc with rfl | rfl
          · rfl
          · simp at h
        | succ j =>
          have := h0.mp hv j (by simpa using hidx)
          simpa [char_at] using this
      · intro h
        have h1 : char_at (c :: cs) 0 = '0' := h 0 (by simp)
        have hc0 : c = '0' := by simpa [char_at] using h1
        have hv : unsigned_value cs = 0 := by
          apply h0.mpr
          intro idx hidx
          have := h (idx + 1) (by simpa using hidx)
          simpa [char_at] using this
        simp [unsigned_value, hc0, hv]
    | succ l =>
      have hl := ih hcs l
      constructor
      · intro h idx hle hidx
        simp only [unsigned_value] at h
        have hv : unsigned_value cs < 2 ^ l := by
          rw [pow_succ] at h
          split at h <;> omega
        cases idx with
        | zero => omega
        | succ j =>
          have := hl.mp hv j (by omega) (by simpa using hidx)
          simpa [char_at] using this
      · intro h
        have hv : unsigned_value cs < 2 ^ l := by
          apply hl.mpr
          intro idx hle hidx
          have := h (idx + 1) (by omega) (by simpa using hidx)
          simpa [char_at] using this
        simp only [unsigned_value]
        rw [pow_succ]
        split <;> omega

/-- For an unsigned constant of binary bits `is_constant_number` decides
exactly whether the value fits a `long`. -/
theorem is_constant_number_unsigned_iff_fits (T : Target) (ex : ivl_expr)
    (hT : 1 ≤ T.sizeof_long)
    (htype : ivl_expr_type ex = .IVL_EX_NUMBER)
    (hunsigned : ivl_expr_signed ex = false)
    (hlen : (ivl_expr_bits ex).length = ivl_expr_width ex)
    (hbin : all_binary (ivl_expr_bits ex)) :
    is_constant_number T ex = true ↔ fits_long T (number_value ex) := by
  have hfit : fits_long T (number_value ex)
      ↔ unsigned_value (ivl_expr_bits ex) < 2 ^ (8 * T.sizeof_long - 1) := by
    unfold fits_long number_value
    simp only [hunsigned, Bool.false_eq_true, if_false]
    constructor
    · intro h; omega
    · intro h; constructor <;> omega
  rw [hfit, unsigned_value_lt_iff _ hbin]
  unfold is_constant_number
  simp only [htype, hunsigned]
  simp only [ne_eq, not_true_eq_false, false_and, if_false, Bool.not_false, if_true,
    Bool.false_and, Bool.false_eq_true, List.all_eq_true, List.mem_range'_1, beq_iff_eq, hlen]
  constructor
  · intro h idx hle hidx
    exact h idx ⟨hle, by omega⟩
  · intro h idx hidx
    exact h idx hidx.1 (by omega)


/-! ## The evaluated-value path -/

/-- What the second loop does with a descriptor that owns a vector: it
writes the operand, then releases the vector with `clr_vector`, or with
`clr_word` when the recorded width is 0. -/
theorem emit_arg_owned {σ : Type} (C : Collab σ) (a : args_info) (w : World σ)
    (hflag : a.vec_flag = true) :
    (emit_arg C a w).log = w.log ++ [Event.fprintf_vvp_out (", " ++ a.text),
      if a.vec.wid > 0 then Event.clr_vector a.vec else Event.clr_word a.vec.base] := by
  unfold emit_arg
  by_cases hw : a.vec.wid > 0
  · simp [hflag, hw, fprintf_vvp_out, call_clr_vector]
  · simp [hflag, hw, fprintf_vvp_out, call_clr_word]

/-- What the second loop does with a descriptor that owns nothing: it
only writes the operand. -/
theorem emit_arg_text_only {σ : Type} (C : Collab σ) (a : args_info) (w : World σ)
    (hflag : a.vec_flag = false) :
    (emit_arg C a w).log = w.log ++ [Event.fprintf_vvp_out (", " ++ a.text)] := by
  unfold emit_arg
  simp [hflag, fprintf_vvp_out]

/-- C11: a signal reference whose width or signedness differs from the
signal's, of logic, bool or real value kind, is evaluated. Of logic or bool
kind `draw_eval_expr` is called once on the whole expression, the token is
`T<base,wid,s|u>` over the vector that came back, the descriptor owns
exactly that vector, and the second loop writes the token and then releases
that same vector once (`clr_vector`, or `clr_word` of its base when its
width is 0). Of real kind `draw_eval_real` is called once, the token is
`W<index,r>`, the descriptor owns that word, and the second loop writes the
token and then releases that same word once with `clr_word`. -/
theorem mismatched_signal_is_evaluated {σ : Type} (T : Target) (C : Collab σ)
    (expr : ivl_expr) (w : World σ)
    (htype : ivl_expr_type expr = .IVL_EX_SIGNAL)
    (hmis : ivl_expr_width expr ≠ ivl_signal_width (ivl_expr_signal expr)
      ∨ ivl_expr_signed expr ≠ ivl_signal_signed (ivl_expr_signal expr)) :
    (ivl_expr_value expr = .IVL_VT_LOGIC ∨ ivl_expr_value expr = .IVL_VT_BOOL →
        classify_arg T C expr w
          = .ok (⟨"T<" ++ toString (C.draw_eval_expr expr 0 w.ext).1.base ++ ","
              ++ toString (C.draw_eval_expr expr 0 w.ext).1.wid ++ ","
              ++ (if ivl_expr_signed expr then "s" else "u") ++ ">",
              true, (C.draw_eval_expr expr 0 w.ext).1⟩,
            ⟨(C.draw_eval_expr expr 0 w.ext).2,
              w.log ++ [Event.draw_eval_expr expr 0 (C.draw_eval_expr expr 0 w.ext).1],
              w.vvp_errors⟩)
        ∧ ∀ w2 : World σ,
          (emit_arg C ⟨"T<" ++ toString (C.draw_eval_expr expr 0 w.ext).1.base ++ ","
              ++ toString (C.draw_eval_expr expr 0 w.ext).1.wid ++ ","
              ++ (if ivl_expr_signed expr then "s" else "u") ++ ">",
              true, (C.draw_eval_expr expr 0 w.ext).1⟩ w2).log
            = w2.log ++ [Event.fprintf_vvp_out
                (", " ++ ("T<" ++ toString (C.draw_eval_expr expr 0 w.ext).1.base ++ ","
                  ++ toString (C.draw_eval_expr expr 0 w.ext).1.wid ++ ","
                  ++ (if ivl_expr_signed expr then "s" else "u") ++ ">")),
              if (C.draw_eval_expr expr 0 w.ext).1.wid > 0
              then Event.clr_vector (C.draw_eval_expr expr 0 w.ext).1
              else Event.clr_word (C.draw_eval_expr expr 0 w.ext).1.base])
      ∧ (ivl_expr_value expr = .IVL_VT_REAL →
        classify_arg T C expr w
          = .ok (⟨"W<" ++ toString (C.draw_eval_real expr w.ext).1 ++ ",r>",
              true, ⟨(C.draw_eval_real expr w.ext).1, 0⟩⟩,
            ⟨(C.draw_eval_real expr w.ext).2,
              w.log ++ [Event.draw_eval_real expr (C.draw_eval_real expr w.ext).1],
              w.vvp_errors⟩)
        ∧ ∀ w2 : World σ,
          (emit_arg C ⟨"W<" ++ toString (C.draw_eval_real expr w.ext).1 ++ ",r>",
              true, ⟨(C.draw_eval_real expr w.ext).1, 0⟩⟩ w2).log
            = w2.log ++ [Event.fprintf_vvp_out
                (", " ++ ("W<" ++ toString (C.draw_eval_real expr w.ext).1 ++ ",r>")),
              Event.clr_word (C.draw_eval_real expr w.ext).1]) := by
  have hdirect : classify_direct T C expr w = .ok none := by
    unfold classify_direct
    simp only [htype]
    rcases hmis with h | h
    · simp [h]
    · by_cases hw : ivl_expr_width expr ≠ ivl_signal_width (ivl_expr_signal expr)
      · simp [hw]
      · simp [hw, h]
  have harg : classify_arg T C expr w = classify_eval C expr w := by
    unfold classify_arg; rw [hdirect]
  rw [harg]
  unfold classify_eval
  refine ⟨?_, ?_⟩
  · intro hk
    refine ⟨?_, fun w2 => ?_⟩
    · rcases hk with hk | hk <;> rw [hk] <;> rfl
    · rw [emit_arg_owned C _ w2 rfl]
  · intro hk
    rw [hk]
    refine ⟨rfl, fun w2 => ?_⟩
    rw [emit_arg_owned C _ w2 rfl]
    rfl

/-- C11 at `vec` read as a 4-bit value: one `draw_eval_expr` call, which
returns the vector `{base 8, wid 4}`; token `T<8,4,u>`; and `clr_vector` of
that same vector after the write. -/
theorem mismatched_signal_is_evaluated_witness :
    ivl_expr_width narrow_signal_ref ≠ ivl_signal_width (ivl_expr_signal narrow_signal_ref)
      ∧ classify_arg lp64 sample_collab narrow_signal_ref sample_world
        = .ok (⟨"T<8,4,u>", true, ⟨8, 4⟩⟩,
            ⟨12, [Event.draw_eval_expr narrow_signal_ref 0 ⟨8, 4⟩], 0⟩)
      ∧ (emit_arg sample_collab ⟨"T<8,4,u>", true, ⟨8, 4⟩⟩ sample_world).log
        = [Event.fprintf_vvp_out ", T<8,4,u>", Event.clr_vector ⟨8, 4⟩] :=
  ⟨by decide,
    ((mismatched_signal_is_evaluated lp64 sample_collab narrow_signal_ref sample_world rfl
      (Or.inl (by decide))).1 (Or.inl rfl)).1,
    ((mismatched_signal_is_evaluated lp64 sample_collab narrow_signal_ref sample_world rfl
      (Or.inl (by decide))).1 (Or.inl rfl)).2 sample_world⟩

/-- C19: an argument that the first switch leaves to be evaluated aborts
on the assertion exactly when its value kind is neither logic, bool nor
real; of logic or bool kind it gets the token `T<base,wid,s>` (signed) or
`T<base,wid,u>` and owns the vector that `draw_eval_expr` returns; of real
kind it gets `W<index,r>` and owns the word that `draw_eval_real` returns,
recorded as a vector of width 0, which the second loop releases with
`clr_word`. -/
theorem default_rule {σ : Type} (T : Target) (C : Collab σ) (expr : ivl_expr) (w : World σ)
    (hreach : classify_direct T C expr w = .ok none) :
    (classify_arg T C expr w = .error Fault.assert_failed
        ↔ (ivl_expr_value expr ≠ .IVL_VT_LOGIC ∧ ivl_expr_value expr ≠ .IVL_VT_BOOL
          ∧ ivl_expr_value expr ≠ .IVL_VT_REAL))
      ∧ (ivl_expr_value expr = .IVL_VT_LOGIC ∨ ivl_expr_value expr = .IVL_VT_BOOL →
          classify_arg T C expr w
            = .ok (⟨"T<" ++ toString (C.draw_eval_expr expr 0 w.ext).1.base ++ ","
                ++ toString (C.draw_eval_expr expr 0 w.ext).1.wid ++ ","
                ++ (if ivl_expr_signed expr then "s" else "u") ++ ">",
                true, (C.draw_eval_expr expr 0 w.ext).1⟩,
              ⟨(C.draw_eval_expr expr 0 w.ext).2,
                w.log ++ [Event.draw_eval_expr expr 0 (C.draw_eval_expr expr 0 w.ext).1],
                w.vvp_errors⟩))
      ∧ (ivl_expr_value expr = .IVL_VT_REAL →
          classify_arg T C expr w
            = .ok (⟨"W<" ++ toString (C.draw_eval_real expr w.ext).1 ++ ",r>",
                true, ⟨(C.draw_eval_real expr w.ext).1, 0⟩⟩,
              ⟨(C.draw_eval_real expr w.ext).2,
                w.log ++ [Event.draw_eval_real expr (C.draw_eval_real expr w.ext).1],
                w.vvp_errors⟩)
          ∧ ∀ w2 : World σ,
            (emit_arg C ⟨"W<" ++ toString (C.draw_eval_real expr w.ext).1 ++ ",r>",
                true, ⟨(C.draw_eval_real expr w.ext).1, 0⟩⟩ w2).log
              = w2.log ++ [Event.fprintf_vvp_out
                  (", " ++ ("W<" ++ toString (C.draw_eval_real expr w.ext).1 ++ ",r>")),
                Event.clr_word (C.draw_eval_real expr w.ext).1]) := by
  have harg : classify_arg T C expr w = classify_eval C expr w := by
    unfold classify_arg; rw [hreach]
  rw [harg]
  unfold classify_eval
  refine ⟨?_, ?_, ?_⟩
  · cases hk : ivl_expr_value expr <;> simp
  · intro hk
    rcases hk with hk | hk <;> rw [hk] <;> rfl
  · intro hk
    rw [hk]
    refine ⟨rfl, fun w2 => ?_⟩
    rw [emit_arg_owned C _ w2 rfl]
    rfl

/-- C19 at a real-valued binary expression: token `W<8,r>`, the word 8
recorded with width 0, and `clr_word(8)` after the write. -/
theorem default_rule_witness :
    classify_direct lp64 sample_collab real_binary sample_world = .ok none
      ∧ classify_arg lp64 sample_collab real_binary sample_world
        = .ok (⟨"W<8,r>", true, ⟨8, 0⟩⟩, ⟨9, [Event.draw_eval_real real_binary 8], 0⟩)
      ∧ (emit_arg sample_collab ⟨"W<8,r>", true, ⟨8, 0⟩⟩ sample_world).log
        = [Event.fprintf_vvp_out ", W<8,r>", Event.clr_word 8] :=
  ⟨rfl,
    ((default_rule lp64 sample_collab real_binary sample_world rfl).2.2 rfl).1,
    ((default_rule lp64 sample_collab real_binary sample_world rfl).2.2 rfl).2 sample_world⟩

/-! ## Array words -/

/-- C13: for a signal reference of matching width and signedness that is
not a fixed memory word, the evaluator is called exactly when the index
expression is present, is not an immediate number and is not a signal
expression. Without index the token is `&A<v<sig>, 0>`, with an immediate
index `n` it is `&A<v<sig>, n>`, with a signal index it is
`&A<v<sig>, v<idxsig>_0 >`, all three with the world left as it was and no
vector in the descriptor; otherwise `draw_eval_expr` is called once on the
index, the token is `&A<v<sig>, <base> <wid>>`, the descriptor owns the
vector, and the second loop releases it once, right after the write. -/
theorem array_word_token {σ : Type} (T : Target) (C : Collab σ) (expr : ivl_expr)
    (w : World σ)
    (htype : ivl_expr_type expr = .IVL_EX_SIGNAL)
    (hwidth : ivl_expr_width expr = ivl_signal_width (ivl_expr_signal expr))
    (hsigned : ivl_expr_signed expr = ivl_signal_signed (ivl_expr_signal expr))
    (hfixed : is_fixed_memory_word T C expr = .ok false) :
    (ivl_expr_oper1 expr = none →
        classify_arg T C expr w
          = .ok (⟨"&A<v" ++ T.fmt_p (ivl_expr_signal expr).addr ++ ", "
              ++ toString (0 : Nat) ++ ">", false, ⟨0, 0⟩⟩, w))
      ∧ (∀ word, ivl_expr_oper1 expr = some word →
          C.number_is_immediate word (8 * T.sizeof_int) = true →
          classify_arg T C expr w
            = .ok (⟨"&A<v" ++ T.fmt_p (ivl_expr_signal expr).addr ++ ", "
                ++ toString (C.get_number_immediate word % 2 ^ (8 * T.sizeof_int)) ++ ">",
                false, ⟨0, 0⟩⟩, w))
      ∧ (∀ word, ivl_expr_oper1 expr = some word →
          C.number_is_immediate word (8 * T.sizeof_int) = false →
          ivl_expr_type word = .IVL_EX_SIGNAL →
          classify_arg T C expr w
            = .ok (⟨"&A<v" ++ T.fmt_p (ivl_expr_signal expr).addr ++ ", v"
                ++ T.fmt_p (ivl_expr_signal word).addr ++ "_0 >", false, ⟨0, 0⟩⟩, w))
      ∧ (∀ word, ivl_expr_oper1 expr = some word →
          C.number_is_immediate word (8 * T.sizeof_int) = false →
          ivl_expr_type word ≠ .IVL_EX_SIGNAL →
          classify_arg T C expr w
            = .ok (⟨"&A<v" ++ T.fmt_p (ivl_expr_signal expr).addr ++ ", "
                ++ toString (C.draw_eval_expr word C.STUFF_OK_XZ w.ext).1.base ++ " "
                ++ toString (C.draw_eval_expr word C.STUFF_OK_XZ w.ext).1.wid ++ ">",
                true, (C.draw_eval_expr word C.STUFF_OK_XZ w.ext).1⟩,
              ⟨(C.draw_eval_expr word C.STUFF_OK_XZ w.ext).2,
                w.log ++ [Event.draw_eval_expr word C.STUFF_OK_XZ
                  (C.draw_eval_expr word C.STUFF_OK_XZ w.ext).1],
                w.vvp_errors⟩)
          ∧ ∀ w2 : World σ,
            (emit_arg C ⟨"&A<v" ++ T.fmt_p (ivl_expr_signal expr).addr ++ ", "
                ++ toString (C.draw_eval_expr word C.STUFF_OK_XZ w.ext).1.base ++ " "
                ++ toString (C.draw_eval_expr word C.STUFF_OK_XZ w.ext).1.wid ++ ">",
                true, (C.draw_eval_expr word C.STUFF_OK_XZ w.ext).1⟩ w2).log
              = w2.log ++ [Event.fprintf_vvp_out (", "
                  ++ ("&A<v" ++ T.fmt_p (ivl_expr_signal expr).addr ++ ", "
                    ++ toString (C.draw_eval_expr word C.STUFF_OK_XZ w.ext).1.base ++ " "
                    ++ toString (C.draw_eval_expr word C.STUFF_OK_XZ w.ext).1.wid ++ ">")),
                if (C.draw_eval_expr word C.STUFF_OK_XZ w.ext).1.wid > 0
                then Event.clr_vector (C.draw_eval_expr word C.STUFF_OK_XZ w.ext).1
                else Event.clr_word (C.draw_eval_expr word C.STUFF_OK_XZ w.ext).1.base]) := by
  have hstep : classify_arg T C expr w =
      (match classify_direct T C expr w with
        | .error f => .error f
        | .ok (some r) => .ok r
        | .ok none => classify_eval C expr w) := rfl
  have hdirect : ∀ r, classify_direct T C expr w = .ok (some r) →
      classify_arg T C expr w = .ok r := by
    intro r hr; rw [hstep, hr]
  refine ⟨?_, ?_, ?_, ?_⟩
  · intro h1
    apply hdirect
    unfold classify_direct
    simp only [htype, hwidth, hsigned, hfixed, ne_eq, not_true_eq_false, if_false]
    unfold resolve_word
    simp only [h1, text_only]
  · intro word h1 himm
    apply hdirect
    unfold classify_direct
    simp only [htype, hwidth, hsigned, hfixed, ne_eq, not_true_eq_false, if_false]
    unfold resolve_word
    simp only [h1, himm, if_true, text_only]
  · intro word h1 himm hsig
    apply hdirect
    unfold classify_direct
    simp only [htype, hwidth, hsigned, hfixed, ne_eq, not_true_eq_false, if_false]
    unfold resolve_word
    simp only [h1, himm, hsig, if_true, text_only, Bool.false_eq_true, if_false]
  · intro word h1 himm hsig
    refine ⟨?_, fun w2 => emit_arg_owned C _ w2 rfl⟩
    apply hdirect
    unfold classify_direct
    simp only [htype, hwidth, hsigned, hfixed, ne_eq, not_true_eq_false, if_false]
    unfold resolve_word
    simp only [h1, himm, hsig, Bool.false_eq_true, if_false]
    rfl

/-- C13 at `regs[idx + idx]`, a word of a variable array with a computed
index: one `draw_eval_expr` call on the index, token `&A<v0x4000, 8 3>`,
and `clr_vector` of `{base 8, wid 3}` after the write. -/
theorem array_word_token_witness :
    is_fixed_memory_word lp64 sample_collab
        (reg_array_word (binary_expr (signal_expr sample_idx) (signal_expr sample_idx) 3))
        = .ok false
      ∧ classify_arg lp64 sample_collab
          (reg_array_word (binary_expr (signal_expr sample_idx) (signal_expr sample_idx) 3))
          sample_world
        = .ok (⟨"&A<v0x4000, 8 3>", true, ⟨8, 3⟩⟩,
            ⟨11, [Event.draw_eval_expr
              (binary_expr (signal_expr sample_idx) (signal_expr sample_idx) 3) 1 ⟨8, 3⟩], 0⟩)
      ∧ (emit_arg sample_collab ⟨"&A<v0x4000, 8 3>", true, ⟨8, 3⟩⟩ sample_world).log
        = [Event.fprintf_vvp_out ", &A<v0x4000, 8 3>", Event.clr_vector ⟨8, 3⟩] :=
  ⟨rfl,
    ((array_word_token lp64 sample_collab
      (reg_array_word (binary_expr (signal_expr sample_idx) (signal_expr sample_idx) 3))
      sample_world rfl rfl rfl rfl).2.2.2 _ rfl rfl (by decide)).1,
    ((array_word_token lp64 sample_collab
      (reg_array_word (binary_expr (signal_expr sample_idx) (signal_expr sample_idx) 3))
      sample_world rfl rfl rfl rfl).2.2.2 _ rfl rfl (by decide)).2 sample_world⟩

/-! ## Constant part selects -/

/-- The loop of `get_constant_number` runs to its end when every bit it
reads is binary. -/
theorem get_constant_number_loop_returns (T : Target) (bits : List Char) (nbits : Nat)
    (hlen : bits.length = nbits) (hpos : 1 ≤ nbits) (hbin : all_binary bits) :
    ∀ k, ∃ rtn, (List.range k).foldlM
        (get_constant_number_step T bits nbits (char_at bits (nbits - 1))) 0 = .ok rtn := by
  intro k
  induction k with
  | zero => exact ⟨0, rfl⟩
  | succ k ih =>
    obtain ⟨r, hr⟩ := ih
    rw [List.range_succ, List.foldlM_append, hr]
    rcases effective_bit_binary bits nbits hlen hpos hbin k with h0 | h1
    · exact ⟨r, by simp [get_constant_number_step, h0, pure, Except.pure, bind, Except.bind]⟩
    · exact ⟨r ||| to_pattern (8 * T.sizeof_long) (int_shl1 T k), by
        simp [get_constant_number_step, h1, pure, Except.pure, bind, Except.bind]⟩

/-- A constant of binary bits has a value under `get_constant_number`. -/
theorem get_constant_number_returns (T : Target) (ex : ivl_expr)
    (htype : ivl_expr_type ex = .IVL_EX_NUMBER)
    (hlen : (ivl_expr_bits ex).length = ivl_expr_width ex)
    (hpos : 1 ≤ ivl_expr_width ex)
    (hbin : all_binary (ivl_expr_bits ex)) :
    ∃ k, get_constant_number T ex = .ok k := by
  obtain ⟨r, hr⟩ := get_constant_number_loop_returns T (ivl_expr_bits ex) (ivl_expr_width ex)
    hlen hpos hbin (8 * T.sizeof_long)
  refine ⟨to_signed (8 * T.sizeof_long) r, ?_⟩
  unfold get_constant_number
  simp only [htype]
  rw [hr]

/-- What `is_constant_number` accepts is a number or an unsigned-long
expression. -/
theorem is_constant_number_type (T : Target) (ex : ivl_expr)
    (h : is_constant_number T ex = true) :
    ivl_expr_type ex = .IVL_EX_NUMBER ∨ ivl_expr_type ex = .IVL_EX_ULONG := by
  by_cases hn : ivl_expr_type ex = .IVL_EX_NUMBER
  · exact Or.inl hn
  · by_cases hu : ivl_expr_type ex = .IVL_EX_ULONG
    · exact Or.inr hu
    · exfalso
      unfold is_constant_number at h
      simp [hn, hu] at h

/-- The classification of a part select of a signal without word index
whose offset `is_constant_number` accepts: `get_constant_number` of the
offset, then the formatting of the token with its result, in the world as
it was. -/
theorem classify_constant_select {σ : Type} (T : Target) (C : Collab σ) (expr : ivl_expr)
    (w : World σ) (vexpr bexpr : ivl_expr)
    (htype : ivl_expr_type expr = .IVL_EX_SELECT)
    (hbase : ivl_expr_oper1 expr = some vexpr)
    (hsig : ivl_expr_type vexpr = .IVL_EX_SIGNAL)
    (hword : ivl_expr_oper1 vexpr = none)
    (hoff : ivl_expr_oper2 expr = some bexpr)
    (hconst : is_constant_number T bexpr = true) :
    classify_arg T C expr w
        = (get_constant_number T bexpr).map (fun k =>
            (⟨"&PV<v" ++ T.fmt_p (ivl_expr_signal vexpr).addr ++ "_0, " ++ toString k ++ ", "
              ++ toString (ivl_expr_width expr) ++ ">", false, ⟨0, 0⟩⟩, w)) := by
  unfold classify_arg classify_direct
  simp only [htype, hbase, hsig, hword, hoff, hconst, ne_eq, not_true_eq_false, if_false,
    Option.isSome_none, Bool.false_eq_true, if_true, text_only]
  cases get_constant_number T bexpr <;> rfl

/-- C12: for a part select whose base is a signal expression without word
index and whose offset `is_constant_number` accepts, the offset being an
unsigned-long expression or a number of width at least 1 whose bits are all
`'0'` or `'1'`: `get_constant_number` returns a value `k` for the offset,
and the classification returns the token
`&PV<v<sig>_0, <k>, <select width>>` in a descriptor that holds no vector,
with the world left as it was, so that no evaluator is called and nothing
is acquired. -/
theorem constant_select_token {σ : Type} (T : Target) (C : Collab σ) (expr : ivl_expr)
    (w : World σ) (vexpr bexpr : ivl_expr)
    (htype : ivl_expr_type expr = .IVL_EX_SELECT)
    (hbase : ivl_expr_oper1 expr = some vexpr)
    (hsig : ivl_expr_type vexpr = .IVL_EX_SIGNAL)
    (hword : ivl_expr_oper1 vexpr = none)
    (hoff : ivl_expr_oper2 expr = some bexpr)
    (hconst : is_constant_number T bexpr = true)
    (hbits : ivl_expr_type bexpr = .IVL_EX_NUMBER →
      (ivl_expr_bits bexpr).length = ivl_expr_width bexpr ∧ 1 ≤ ivl_expr_width bexpr
        ∧ all_binary (ivl_expr_bits bexpr)) :
    ∃ k, get_constant_number T bexpr = .ok k
      ∧ classify_arg T C expr w
        = .ok (⟨"&PV<v" ++ T.fmt_p (ivl_expr_signal vexpr).addr ++ "_0, "
            ++ toString k ++ ", " ++ toString (ivl_expr_width expr) ++ ">",
            false, ⟨0, 0⟩⟩, w) := by
  have hk : ∃ k, get_constant_number T bexpr = .ok k := by
    rcases is_constant_number_type T bexpr hconst with hn | hu
    · obtain ⟨hlen, hpos, hbin⟩ := hbits hn
      exact get_constant_number_returns T bexpr hn hlen hpos hbin
    · exact ⟨to_signed (8 * T.sizeof_int) (T.value_code (ivl_expr_value bexpr)), by
        unfold get_constant_number; simp only [hu]⟩
  obtain ⟨k, hk⟩ := hk
  refine ⟨k, hk, ?_⟩
  rw [classify_constant_select T C expr w vexpr bexpr htype hbase hsig hword hoff hconst, hk]
  rfl

/-- C12 at `vec[2 +: 4]` with the offset `3'b010`: the offset is 2, the
token is `&PV<v0x1000_0, 2, 4>`, nothing is logged and the descriptor holds
no vector. -/
theorem constant_select_token_witness :
    is_constant_number lp64 (number_expr false ['0', '1', '0']) = true
      ∧ get_constant_number lp64 (number_expr false ['0', '1', '0']) = .ok 2
      ∧ classify_arg lp64 sample_collab constant_select sample_world
        = .ok (⟨"&PV<v0x1000_0, 2, 4>", false, ⟨0, 0⟩⟩, sample_world)
      ∧ ∃ k, get_constant_number lp64 (number_expr false ['0', '1', '0']) = .ok k
        ∧ classify_arg lp64 sample_collab constant_select sample_world
          = .ok (⟨"&PV<v" ++ lp64.fmt_p (ivl_expr_signal (signal_expr sample_vec)).addr
              ++ "_0, " ++ toString k ++ ", " ++ toString (ivl_expr_width constant_select)
              ++ ">", false, ⟨0, 0⟩⟩, sample_world) :=
  ⟨by decide, by decide, rfl,
    constant_select_token lp64 sample_collab constant_select sample_world
      (signal_expr sample_vec) (number_expr false ['0', '1', '0']) rfl rfl rfl rfl rfl
      (by decide) (fun _ => ⟨rfl, by decide, by decide⟩)⟩

/-! ## System function calls as arguments -/

/-- The names that `is_magic_sfunc` accepts. -/
theorem is_magic_sfunc_iff (name : String) :
    is_magic_sfunc name = true
      ↔ name = "$time" ∨ name = "$stime" ∨ name = "$realtime" ∨ name = "$simtime" := by
  unfold is_magic_sfunc magic_sfuncs
  simp only [List.any_cons, List.any_nil, Bool.or_false, Bool.or_eq_true, beq_iff_eq]
  constructor
  · rintro (h | h | h | h)
    · exact Or.inl h.symm
    · exact Or.inr (Or.inl h.symm)
    · exact Or.inr (Or.inr (Or.inl h.symm))
    · exact Or.inr (Or.inr (Or.inr h.symm))
  · rintro (h | h | h | h)
    · exact Or.inl h.symm
    · exact Or.inr (Or.inl h.symm)
    · exact Or.inr (Or.inr (Or.inl h.symm))
    · exact Or.inr (Or.inr (Or.inr h.symm))

/-- C17 as stated fails at a call of `$random` whose value kind is
`IVL_VT_VOID`: the name is not magic, the argument takes the default path,
and there the assertion fails, so no resource is acquired. -/
theorem void_sfunc_aborts :
    ivl_expr_type void_sfunc = .IVL_EX_SFUNC
      ∧ is_magic_sfunc (ivl_expr_name void_sfunc) = false
      ∧ classify_arg lp64 sample_collab void_sfunc sample_world = .error Fault.assert_failed :=
  ⟨rfl, by decide, rfl⟩

/-- C17, amended: a system function call is lowered to its own name, with
the world left as it was and no vector in the descriptor, exactly when the
name is one of `$time`, `$stime`, `$realtime`, `$simtime`; every other call
takes the default path, where it acquires exactly one resource, owned by
the descriptor, when its value kind is logic, bool or real, and fails on
the assertion otherwise. -/
theorem sfunc_argument {σ : Type} (T : Target) (C : Collab σ) (expr : ivl_expr) (w : World σ)
    (htype : ivl_expr_type expr = .IVL_EX_SFUNC) :
    (classify_arg T C expr w = .ok (⟨ivl_expr_name expr, false, ⟨0, 0⟩⟩, w)
        ↔ (ivl_expr_name expr = "$time" ∨ ivl_expr_name expr = "$stime"
          ∨ ivl_expr_name expr = "$realtime" ∨ ivl_expr_name expr = "$simtime"))
      ∧ (is_magic_sfunc (ivl_expr_name expr) = false →
          classify_arg T C expr w = classify_eval C expr w)
      ∧ (is_magic_sfunc (ivl_expr_name expr) = false →
          (ivl_expr_value expr = .IVL_VT_LOGIC ∨ ivl_expr_value expr = .IVL_VT_BOOL
            ∨ ivl_expr_value expr = .IVL_VT_REAL) →
          ∃ (a : args_info) (w1 : World σ) (ev : Event),
            classify_arg T C expr w = .ok (a, w1) ∧ a.vec_flag = true
              ∧ w1.log = w.log ++ [ev] ∧ ev.is_acquire = true)
      ∧ (is_magic_sfunc (ivl_expr_name expr) = false →
          ivl_expr_value expr ≠ .IVL_VT_LOGIC → ivl_expr_value expr ≠ .IVL_VT_BOOL →
          ivl_expr_value expr ≠ .IVL_VT_REAL →
          classify_arg T C expr w = .error Fault.assert_failed) := by
  have hnot : is_magic_sfunc (ivl_expr_name expr) = false →
      classify_arg T C expr w = classify_eval C expr w := by
    intro hm
    unfold classify_arg classify_direct
    simp only [htype, hm, Bool.false_eq_true, if_false]
  have hmagic : is_magic_sfunc (ivl_expr_name expr) = true →
      classify_arg T C expr w = .ok (⟨ivl_expr_name expr, false, ⟨0, 0⟩⟩, w) := by
    intro hm
    have hshort : snprintf_buffer (ivl_expr_name expr) = ivl_expr_name expr := by
      rcases (is_magic_sfunc_iff _).mp hm with h | h | h | h <;> rw [h] <;> decide
    unfold classify_arg classify_direct
    simp only [htype, hm, if_true, text_only, hshort]
  refine ⟨⟨?_, fun h => hmagic ((is_magic_sfunc_iff _).mpr h)⟩, hnot, ?_, ?_⟩
  · intro h
    cases hm : is_magic_sfunc (ivl_expr_name expr) with
    | true => exact (is_magic_sfunc_iff _).mp hm
    | false =>
      exfalso
      rw [hnot hm] at h
      obtain ⟨evs, -, -, -, -, hflag, -⟩ := classify_eval_log C expr w w _ h
      simp at hflag
  · intro hm hkind
    rw [hnot hm]
    unfold classify_eval
    rcases hkind with h | h | h <;> rw [h] <;> exact ⟨_, _, _, rfl, rfl, rfl, rfl⟩
  · intro hm h1 h2 h3
    rw [hnot hm]
    unfold classify_eval
    cases hk : ivl_expr_value expr <;> simp_all

/-- The amended C17 at a call of `$time`: the token is the name, nothing
is logged and the descriptor holds no vector. -/
theorem sfunc_argument_witness :
    ivl_expr_type (sfunc_expr "$time" []) = .IVL_EX_SFUNC
      ∧ classify_arg lp64 sample_collab (sfunc_expr "$time" []) sample_world
        = .ok (⟨"$time", false, ⟨0, 0⟩⟩, sample_world) :=
  ⟨rfl,
    (sfunc_argument lp64 sample_collab (sfunc_expr "$time" []) sample_world rfl).1.mpr
      (Or.inl rfl)⟩

/-! ## The events of one lowering -/

/-- An argument handled by the first switch logs at most evaluator calls,
and `vvp_errors` is not touched. -/
theorem classify_direct_events {σ : Type} (T : Target) (C : Collab σ) (expr : ivl_expr)
    (w w1 : World σ) (a : args_info)
    (h : classify_direct T C expr w = .ok (some (a, w1))) :
    ∃ evs, w1.log = w.log ++ evs ∧ (∀ e ∈ evs, e.is_acquire = true)
      ∧ w1.vvp_errors = w.vvp_errors := by
  unfold classify_direct at h
  cases ht : ivl_expr_type expr <;> simp only [ht] at h
  all_goals (
    repeat' (split at h)
    all_goals (first | (cases h; done) | skip)
    all_goals (
      simp only [Except.ok.injEq, Option.some.injEq, Prod.mk.injEq] at h
      obtain ⟨rfl, rfl⟩ := h
      first
      | (refine ⟨[], ?_, ?_, rfl⟩
         · simp
         · simp)
      | (refine ⟨_, rfl, ?_, rfl⟩
         simp [Event.is_acquire])))

/-- The events that the classification of one argument logs are evaluator
calls, and `vvp_errors` is not touched. -/
theorem classify_arg_events {σ : Type} (T : Target) (C : Collab σ) (expr : ivl_expr)
    (w w1 : World σ) (a : args_info) (h : classify_arg T C expr w = .ok (a, w1)) :
    ∃ evs, w1.log = w.log ++ evs ∧ (∀ e ∈ evs, e.is_acquire = true)
      ∧ w1.vvp_errors = w.vvp_errors := by
  unfold classify_arg at h
  split at h
  · cases h
  · rename_i r hd
    cases h
    exact classify_direct_events T C expr w w1 a hd
  · unfold classify_eval at h
    split at h
    · simp only [Except.ok.injEq, Prod.mk.injEq] at h
      obtain ⟨rfl, rfl⟩ := h
      exact ⟨_, rfl, by simp [Event.is_acquire], rfl⟩
    · simp only [Except.ok.injEq, Prod.mk.injEq] at h
      obtain ⟨rfl, rfl⟩ := h
      exact ⟨_, rfl, by simp [Event.is_acquire], rfl⟩
    · simp only [Except.ok.injEq, Prod.mk.injEq] at h
      obtain ⟨rfl, rfl⟩ := h
      exact ⟨_, rfl, by simp [Event.is_acquire], rfl⟩
    · cases h

/-- The events of the classification loop are evaluator calls; the loop
fills one descriptor per argument and does not touch `vvp_errors`. -/
theorem classify_args_events {σ : Type} (T : Target) (C : Collab σ) (parms : List ivl_expr) :
    ∀ (w w1 : World σ) (args : List args_info),
      classify_args T C parms w = .ok (args, w1) →
      ∃ evs, w1.log = w.log ++ evs ∧ (∀ e ∈ evs, e.is_acquire = true)
        ∧ w1.vvp_errors = w.vvp_errors ∧ args.length = parms.length := by
  induction parms with
  | nil =>
    intro w w1 args h
    simp only [classify_args, Except.ok.injEq, Prod.mk.injEq] at h
    obtain ⟨rfl, rfl⟩ := h
    exact ⟨[], by simp, by simp, rfl, rfl⟩
  | cons expr rest ih =>
    intro w w1 args h
    simp only [classify_args] at h
    split at h
    · cases h
    · rename_i a wa ha
      split at h
      · cases h
      · rename_i as wb hb
        simp only [Except.ok.injEq, Prod.mk.injEq] at h
        obtain ⟨rfl, rfl⟩ := h
        obtain ⟨e1, p1, p2, p3⟩ := classify_arg_events T C expr w wa a ha
        obtain ⟨e2, q1, q2, q3, q4⟩ := ih wa wb as hb
        refine ⟨e1 ++ e2, ?_, ?_, ?_, ?_⟩
        · rw [q1, p1, List.append_assoc]
        · intro e he
          rcases List.mem_append.mp he with h1 | h2
          · exact p2 e h1
          · exact q2 e h2
        · rw [q3, p3]
        · simp [q4]

/-- The events of the second loop: the operand texts in order, and after
each the release of the vector that its descriptor owns; nothing else. -/
theorem emit_args_events {σ : Type} (C : Collab σ) (args : List args_info) :
    ∀ (w : World σ), ∃ evs, (emit_args C args w).log = w.log ++ evs
      ∧ vvp_text evs = operand_list (args.map (fun a => a.text))
      ∧ (∀ e ∈ evs, (∃ text, e = Event.fprintf_vvp_out text)
          ∨ ∃ a ∈ args, a.vec_flag = true
            ∧ (e = Event.clr_vector a.vec ∨ e = Event.clr_word a.vec.base))
      ∧ (emit_args C args w).vvp_errors = w.vvp_errors := by
  induction args with
  | nil => intro w; exact ⟨[], by simp [emit_args], rfl, by simp, rfl⟩
  | cons a rest ih =>
    intro w
    obtain ⟨e2, q1, q2, q3, q4⟩ := ih (emit_arg C a w)
    have herr : (emit_arg C a w).vvp_errors = w.vvp_errors := by
      unfold emit_arg
      split
      · split <;> rfl
      · rfl
    cases hf : a.vec_flag with
    | false =>
      refine ⟨Event.fprintf_vvp_out (", " ++ a.text) :: e2, ?_, ?_, ?_, ?_⟩
      · simp only [emit_args]; rw [q1, emit_arg_text_only C a w hf]; simp
      · simp only [vvp_text, q2, List.map_cons, operand_list]
      · intro e he
        rcases List.mem_cons.mp he with h1 | h2
        · exact Or.inl ⟨_, h1⟩
        · rcases q3 e h2 with h3 | ⟨b, hb, h4⟩
          · exact Or.inl h3
          · exact Or.inr ⟨b, List.mem_cons_of_mem _ hb, h4⟩
      · simp only [emit_args]; rw [q4, herr]
    | true =>
      refine ⟨Event.fprintf_vvp_out (", " ++ a.text)
        :: (if a.vec.wid > 0 then Event.clr_vector a.vec else Event.clr_word a.vec.base)
        :: e2, ?_, ?_, ?_, ?_⟩
      · simp only [emit_args]; rw [q1, emit_arg_owned C a w hf]; simp
      · have hrel : vvp_text ((if a.vec.wid > 0 then Event.clr_vector a.vec
            else Event.clr_word a.vec.base) :: e2) = vvp_text e2 := by
          split <;> rfl
        simp only [vvp_text, hrel, q2, List.map_cons, operand_list]
      · intro e he
        rcases List.mem_cons.mp he with h1 | h2
        · exact Or.inl ⟨_, h1⟩
        · rcases List.mem_cons.mp h2 with h3 | h4
          · refine Or.inr ⟨a, List.mem_cons_self _ _, hf, ?_⟩
            rw [h3]
            split
            · exact Or.inl rfl
            · exact Or.inr rfl
          · rcases q3 e h4 with h5 | ⟨b, hb, h6⟩
            · exact Or.inl h5
            · exact Or.inr ⟨b, List.mem_cons_of_mem _ hb, h6⟩
      · simp only [emit_args]; rw [q4, herr]

/-- One run of `draw_vpi_taskfunc_args` that returns: one descriptor per
argument, each the classifier's result for its argument; the events are
first the evaluator calls of the classification, then the writes, which
spell the call string, the operands in order and `";\n"`, with the release
of a descriptor's vector after its operand; `vvp_errors` is not touched. -/
theorem taskfunc_args_run {σ : Type} (T : Target) (C : Collab σ) (call_string : String)
    (tnet : Option ivl_statement) (fnet : Option ivl_expr) (w w1 : World σ)
    (h : draw_vpi_taskfunc_args T C call_string tnet fnet w = .ok w1) :
    ∃ (parms : List ivl_expr) (args : List args_info) (evs1 evs2 : List Event),
      call_parms tnet fnet = .ok parms
      ∧ args.length = parms.length
      ∧ (∀ (i : Nat) (expr : ivl_expr), parms[i]? = some expr →
          ∃ a wi wj, args[i]? = some a ∧ classify_arg T C expr wi = .ok (a, wj))
      ∧ w1.log = w.log ++ evs1 ++ evs2
      ∧ (∀ e ∈ evs1, e.is_acquire = true)
      ∧ vvp_text evs2
          = call_string ++ operand_list (args.map (fun a => a.text)) ++ ";\n"
      ∧ (∀ e ∈ evs2, (∃ text, e = Event.fprintf_vvp_out text)
          ∨ ∃ a ∈ args, a.vec_flag = true
            ∧ (e = Event.clr_vector a.vec ∨ e = Event.clr_word a.vec.base))
      ∧ w1.vvp_errors = w.vvp_errors := by
  unfold draw_vpi_taskfunc_args at h
  split at h
  · cases h
  · rename_i ps hps
    split at h
    · cases h
    · rename_i args wa ha
      simp only [Except.ok.injEq] at h
      subst h
      obtain ⟨e1, p1, p2, p3, p4⟩ := classify_args_events T C ps w wa args ha
      obtain ⟨e2, q1, q2, q3, q4⟩ := emit_args_events C args (fprintf_vvp_out call_string wa)
      refine ⟨ps, args, e1, Event.fprintf_vvp_out call_string :: e2
        ++ [Event.fprintf_vvp_out ";\n"], hps, p4,
        classify_args_each T C ps w wa args ha, ?_, p2, ?_, ?_, ?_⟩
      · simp only [fprintf_vvp_out] at q1 ⊢
        rw [q1, p1]; simp
      · rw [vvp_text_append]
        simp only [vvp_text, q2]
        simp [String.append_assoc]
      · intro e he
        rcases List.mem_append.mp he with h1 | h2
        · rcases List.mem_cons.mp h1 with h3 | h4
          · exact Or.inl ⟨_, h3⟩
          · exact q3 e h4
        · exact Or.inl ⟨_, List.mem_singleton.mp h2⟩
      · simp only [fprintf_vvp_out] at q4 ⊢
        rw [q4, p3]

/-! ## The entry points -/

/-- The steps of `draw_vpi_func_call` after the reservation: the call line
is formatted with the base that came back, the arguments are lowered, and
the vector `{base, wid}` is returned. -/
theorem func_call_steps {σ : Type} (T : Target) (C : Collab σ) (fnet : ivl_expr)
    (wid : Nat) (w : World σ) :
    draw_vpi_func_call T C fnet wid w
      = (match sprintf_call_string
            (vpi_func_line C fnet (C.allocate_vector wid w.ext).1 wid) with
        | .error f => .error f
        | .ok call_string =>
          match draw_vpi_taskfunc_args T C call_string none (some fnet)
              (after_reservation C fnet wid w) with
          | .error f => .error f
          | .ok w2 => .ok (⟨(C.allocate_vector wid w.ext).1, wid⟩, w2)) := by
  unfold draw_vpi_func_call after_reservation vpi_func_line reservation_diagnostic
    call_allocate_vector fprintf_stderr
  by_cases hb : (C.allocate_vector wid w.ext).1 = 0 <;> simp [hb]

/-- What `sprintf_call_string` returns is the text it is given. -/
theorem sprintf_call_string_ok (text call_string : String)
    (h : sprintf_call_string text = .ok call_string) : call_string = text := by
  unfold sprintf_call_string at h
  split at h
  · simp only [Except.ok.injEq] at h
    exact h.symm
  · cases h

/-- The log of the second loop: what was there, then `emit_events`. -/
theorem emit_args_log_eq {σ : Type} (C : Collab σ) (args : List args_info) :
    ∀ (w : World σ), (emit_args C args w).log = w.log ++ emit_events args := by
  induction args with
  | nil => intro w; simp [emit_args, emit_events]
  | cons a rest ih =>
    intro w
    simp only [emit_args, emit_events]
    rw [ih]
    cases hf : a.vec_flag with
    | false => rw [emit_arg_text_only C a w hf]; simp
    | true => rw [emit_arg_owned C a w hf]; simp [release_event]

/-- The text that the second loop writes is the operand list. -/
theorem emit_events_text (args : List args_info) :
    vvp_text (emit_events args) = operand_list (args.map (fun a => a.text)) := by
  induction args with
  | nil => rfl
  | cons a rest ih =>
    have hrel : vvp_text ((if a.vec_flag then [release_event a] else []) ++ emit_events rest)
        = vvp_text (emit_events rest) := by
      cases a.vec_flag
      · rfl
      · simp only [if_true, List.singleton_append, release_event]
        split <;> rfl
    simp only [emit_events, vvp_text, hrel, ih, List.map_cons, operand_list,
      String.append_assoc]

/-- The second loop releases once per descriptor that owns a vector. -/
theorem emit_events_releases (args : List args_info) :
    releases (emit_events args) = (args.filter (fun a => a.vec_flag)).length := by
  induction args with
  | nil => rfl
  | cons a rest ih =>
    have hrel : (release_event a).is_release = true := by
      unfold release_event
      split <;> rfl
    unfold releases at ih ⊢
    cases hf : a.vec_flag
    · simp [emit_events, hf, ih, Event.is_release]
    · simp [emit_events, hf, ih, Event.is_release, List.countP_cons_of_pos _ _ hrel]

/-- Every release of the second loop is the release of a descriptor that
owns a vector. -/
theorem emit_events_release_mem (args : List args_info) :
    ∀ e ∈ emit_events args, e.is_release = true →
      ∃ a ∈ args, a.vec_flag = true ∧ e = release_event a := by
  induction args with
  | nil => intro e he; simp [emit_events] at he
  | cons a rest ih =>
    intro e he hr
    simp only [emit_events, List.mem_cons, List.mem_append] at he
    rcases he with h1 | h2 | h3
    · rw [h1] at hr; cases hr
    · cases hf : a.vec_flag
      · simp [hf] at h2
      · simp only [hf, if_true, List.mem_singleton] at h2
        exact ⟨a, List.mem_cons_self _ _, hf, h2⟩
    · obtain ⟨b, hb, hbf, hbe⟩ := ih e h3 hr
      exact ⟨b, List.mem_cons_of_mem _ hb, hbf, hbe⟩

/-- Evaluator calls are not releases. -/
theorem releases_of_acquires (evs : List Event) (h : ∀ e ∈ evs, e.is_acquire = true) :
    releases evs = 0 := by
  induction evs with
  | nil => rfl
  | cons e rest ih =>
    have he := h e (List.mem_cons_self _ _)
    have hrest := ih (fun x hx => h x (List.mem_cons_of_mem _ hx))
    unfold releases at hrest ⊢
    cases e <;> simp_all [Event.is_acquire, Event.is_release]

/-- C14: in a vector function call that is lowered, `allocate_vector(wid)`
is called first, in the world as it was; with `b` the base that it returns,
the function returns `{b, wid}`. The arguments are classified only
afterwards, in the world that the allocator left (with the diagnostic and
the error count when `b` is 0), and that classification logs evaluator
calls only. The line `    %vpi_func <file> <line> "<name>", <b>, <wid>` is
written next, then for each descriptor its operand followed by its release
when it owns a vector, then `";\n"`, and nothing else. So the whole call
makes exactly one release per argument descriptor that owns a vector, each
of that descriptor's vector, and none for the result vector. -/
theorem func_call_reserves_first {σ : Type} (T : Target) (C : Collab σ) (fnet : ivl_expr)
    (wid : Nat) (w w1 : World σ) (res : vector_info)
    (h : draw_vpi_func_call T C fnet wid w = .ok (res, w1)) :
    res = ⟨(C.allocate_vector wid w.ext).1, wid⟩
      ∧ ∃ (args : List args_info) (wa : World σ) (evs1 : List Event),
        classify_args T C (ivl_expr_parm_list fnet)
            ⟨(C.allocate_vector wid w.ext).2,
              w.log ++ Event.allocate_vector wid res.base
                :: (if res.base = 0
                    then [Event.fprintf_stderr (reservation_diagnostic fnet wid)] else []),
              w.vvp_errors + (if res.base = 0 then 1 else 0)⟩
          = .ok (args, wa)
        ∧ wa.log = w.log ++ Event.allocate_vector wid res.base
            :: (if res.base = 0
                then [Event.fprintf_stderr (reservation_diagnostic fnet wid)] else [])
            ++ evs1
        ∧ (∀ e ∈ evs1, e.is_acquire = true)
        ∧ w1 = fprintf_vvp_out ";\n"
            (emit_args C args (fprintf_vvp_out (vpi_func_line C fnet res.base wid) wa))
        ∧ w1.log = wa.log ++ Event.fprintf_vvp_out (vpi_func_line C fnet res.base wid)
            :: emit_events args ++ [Event.fprintf_vvp_out ";\n"]
        ∧ vvp_text (Event.fprintf_vvp_out (vpi_func_line C fnet res.base wid)
              :: emit_events args ++ [Event.fprintf_vvp_out ";\n"])
            = vpi_func_line C fnet res.base wid
              ++ operand_list (args.map (fun a => a.text)) ++ ";\n"
        ∧ releases (Event.allocate_vector wid res.base
              :: (if res.base = 0
                  then [Event.fprintf_stderr (reservation_diagnostic fnet wid)] else [])
              ++ evs1 ++ Event.fprintf_vvp_out (vpi_func_line C fnet res.base wid)
              :: emit_events args ++ [Event.fprintf_vvp_out ";\n"])
            = (args.filter (fun a => a.vec_flag)).length
        ∧ ∀ e ∈ emit_events args, e.is_release = true →
            ∃ a ∈ args, a.vec_flag = true ∧ e = release_event a := by
  rw [func_call_steps] at h
  split at h
  · cases h
  · rename_i cs hcs
    have hline := sprintf_call_string_ok _ _ hcs
    subst hline
    split at h
    · cases h
    · rename_i w2 hrun
      simp only [Except.ok.injEq, Prod.mk.injEq] at h
      obtain ⟨rfl, rfl⟩ := h
      unfold draw_vpi_taskfunc_args at hrun
      simp only [call_parms] at hrun
      split at hrun
      · cases hrun
      · rename_i args wa hcls
        simp only [Except.ok.injEq] at hrun
        obtain ⟨e1, p1, p2, -, -⟩ := classify_args_events T C _ _ wa args hcls
        have hlog : (fprintf_vvp_out ";\n" (emit_args C args (fprintf_vvp_out
            (vpi_func_line C fnet (C.allocate_vector wid w.ext).1 wid) wa))).log
            = wa.log ++ Event.fprintf_vvp_out
                (vpi_func_line C fnet (C.allocate_vector wid w.ext).1 wid)
              :: emit_events args ++ [Event.fprintf_vvp_out ";\n"] := by
          simp only [fprintf_vvp_out]
          rw [emit_args_log_eq]
          simp
        refine ⟨rfl, args, wa, e1, hcls, ?_, p2, hrun.symm, ?_, ?_, ?_,
          emit_events_release_mem args⟩
        · rw [p1]; simp [after_reservation]
        · rw [← hrun]; exact hlog
        · rw [List.cons_append, vvp_text, vvp_text_append, emit_events_text]
          simp only [vvp_text, String.append_empty, String.append_assoc]
        · have hdiag : releases (if (C.allocate_vector wid w.ext).1 = 0
              then [Event.fprintf_stderr (reservation_diagnostic fnet wid)] else []) = 0 := by
            split <;> rfl
          have hcons : ∀ (e : Event) (l : List Event), e.is_release = false →
              releases (e :: l) = releases l := by
            intro e l he
            simp [releases, he]
          rw [releases_append, releases_append, releases_append,
            hcons (Event.allocate_vector _ _) _ rfl, hdiag, releases_of_acquires e1 p2,
            hcons (Event.fprintf_vvp_out _) _ rfl, emit_events_releases]
          simp [releases, Event.is_release]

/-- C14 at the call of `$random` on `vec` read as a 4-bit value, with
`wid = 32` reserved at base 5: `allocate_vector(32)` is logged first and
returns 5; the argument is evaluated afterwards, into the vector
`{37, 4}`; the line carries the result operand `5, 32` ahead of the
argument operand `T<37,4,u>`; the only release is `clr_vector` of
`{37, 4}`; and `{5, 32}` is returned. -/
theorem func_call_reserves_first_witness :
    ∃ w1, draw_vpi_func_call lp64 sample_collab random_of_narrow 32 ⟨5, [], 0⟩
        = .ok (⟨5, 32⟩, w1)
      ∧ w1.log = [Event.allocate_vector 32 5,
          Event.draw_eval_expr narrow_signal_ref 0 ⟨37, 4⟩,
          Event.fprintf_vvp_out "    %vpi_func 2 10 \"$random\", 5, 32",
          Event.fprintf_vvp_out ", T<37,4,u>",
          Event.clr_vector ⟨37, 4⟩,
          Event.fprintf_vvp_out ";\n"]
      ∧ vvp_text w1.log = "    %vpi_func 2 10 \"$random\", 5, 32, T<37,4,u>;\n"
      ∧ (⟨5, 32⟩ : vector_info) = ⟨(sample_collab.allocate_vector 32 5).1, 32⟩ :=
  ⟨_, rfl, rfl, rfl,
    (func_call_reserves_first lp64 sample_collab random_of_narrow 32 ⟨5, [], 0⟩ _ ⟨5, 32⟩
      rfl).1⟩

/-- C15: when the call line fits `call_string` and the arguments are
classified without abort from the state that the allocator leaves, the
vector function call is lowered whether the reservation fails or not: it
returns `{b, wid}` for the base `b` that `allocate_vector` gave (the
sentinel 0 after a failure), the line is written with that base and the
requested width, every argument gets its operand, and `vvp_errors` ends
one higher when `b` is 0 and unchanged otherwise; a failed reservation adds
only the diagnostic to the log. -/
theorem func_call_failed_reservation {σ : Type} (T : Target) (C : Collab σ)
    (fnet : ivl_expr) (wid : Nat) (w : World σ)
    (hfit : (vpi_func_line C fnet (C.allocate_vector wid w.ext).1 wid).length + 1
      ≤ sizeof_call_string)
    (hcls : ∀ w0 : World σ, w0.ext = (C.allocate_vector wid w.ext).2 →
      ∃ r, classify_args T C (ivl_expr_parm_list fnet) w0 = .ok r) :
    ∃ (w1 : World σ) (args : List args_info) (evs : List Event),
      draw_vpi_func_call T C fnet wid w = .ok (⟨(C.allocate_vector wid w.ext).1, wid⟩, w1)
      ∧ w1.vvp_errors
          = w.vvp_errors + (if (C.allocate_vector wid w.ext).1 = 0 then 1 else 0)
      ∧ args.length = (ivl_expr_parm_list fnet).length
      ∧ w1.log = w.log ++ Event.allocate_vector wid (C.allocate_vector wid w.ext).1
          :: (if (C.allocate_vector wid w.ext).1 = 0
              then [Event.fprintf_stderr (reservation_diagnostic fnet wid)] else [])
          ++ evs
      ∧ (∀ e ∈ evs, ∀ text, e ≠ Event.fprintf_stderr text)
      ∧ vvp_text evs = vpi_func_line C fnet (C.allocate_vector wid w.ext).1 wid
          ++ operand_list (args.map (fun a => a.text)) ++ ";\n" := by
  obtain ⟨⟨args0, wa⟩, hr⟩ := hcls (after_reservation C fnet wid w) rfl
  have hrun : ∃ w2, draw_vpi_taskfunc_args T C
      (vpi_func_line C fnet (C.allocate_vector wid w.ext).1 wid) none (some fnet)
      (after_reservation C fnet wid w) = .ok w2 := by
    unfold draw_vpi_taskfunc_args
    simp only [call_parms, hr]
    exact ⟨_, rfl⟩
  obtain ⟨w2, hw2⟩ := hrun
  obtain ⟨ps, args, e1, e2, hps, hlen, -, hlog, hacq, htext, hrel, herr⟩ :=
    taskfunc_args_run T C _ none (some fnet) _ _ hw2
  have hps' : ps = ivl_expr_parm_list fnet := by
    simp only [call_parms, Except.ok.injEq] at hps
    exact hps.symm
  refine ⟨w2, args, e1 ++ e2, ?_, ?_, by rw [hlen, hps'], ?_, ?_, ?_⟩
  · rw [func_call_steps]
    simp only [sprintf_call_string, hfit, if_true, hw2]
  · rw [herr]; rfl
  · rw [hlog]
    simp [after_reservation]
  · intro e he text heq
    rcases List.mem_append.mp he with h1 | h2
    · have := hacq e h1
      rw [heq] at this
      cases this
    · rcases hrel e h2 with ⟨t, ht⟩ | ⟨a, -, -, ha | ha⟩
      · rw [heq] at ht; cases ht
      · rw [heq] at ha; cases ha
      · rw [heq] at ha; cases ha
  · rw [vvp_text_append, htext]
    have : vvp_text e1 = "" := by
      clear hlog
      induction e1 with
      | nil => rfl
      | cons e rest ih =>
        have he := hacq e (List.mem_cons_self _ _)
        have hrest := ih (fun x hx => hacq x (List.mem_cons_of_mem _ hx))
        cases e <;> simp_all [vvp_text, Event.is_acquire]
    rw [this]
    simp

/-- C15 at `$random(vec)` with `wid = 32` when `allocate_vector` returns 0:
`vvp_errors` goes from 0 to 1, the line is written with base 0 and width
32, the argument gets its operand, and `{0, 32}` is returned. -/
theorem func_call_failed_reservation_witness :
    (sample_collab.allocate_vector 32 0).1 = 0
      ∧ (∃ w1, draw_vpi_func_call lp64 sample_collab random_call 32 ⟨0, [], 0⟩
          = .ok (⟨0, 32⟩, w1)
        ∧ w1.vvp_errors = 1
        ∧ vvp_text w1.log = "    %vpi_func 2 10 \"$random\", 0, 32, v0x1000_0;\n")
      ∧ ∃ (w1 : World Nat) (args : List args_info) (evs : List Event),
        draw_vpi_func_call lp64 sample_collab random_call 32 ⟨0, [], 0⟩
          = .ok (⟨(sample_collab.allocate_vector 32 0).1, 32⟩, w1)
        ∧ w1.vvp_errors
            = (0 : Int) + (if (sample_collab.allocate_vector 32 0).1 = 0 then 1 else 0)
        ∧ args.length = (ivl_expr_parm_list random_call).length
        ∧ w1.log = ([] : List Event)
            ++ Event.allocate_vector 32 (sample_collab.allocate_vector 32 0).1
            :: (if (sample_collab.allocate_vector 32 0).1 = 0
                then [Event.fprintf_stderr (reservation_diagnostic random_call 32)] else [])
            ++ evs
        ∧ (∀ e ∈ evs, ∀ text, e ≠ Event.fprintf_stderr text)
        ∧ vvp_text evs = vpi_func_line sample_collab random_call
              (sample_collab.allocate_vector 32 0).1 32
            ++ operand_list (args.map (fun a => a.text)) ++ ";\n" :=
  ⟨rfl, ⟨_, rfl, rfl, rfl⟩,
    func_call_failed_reservation lp64 sample_collab random_call 32 ⟨0, [], 0⟩ (by decide)
      (fun _ _ => ⟨_, rfl⟩)⟩

/-- C16: for a task call without arguments whose call line
`    %vpi_call f l "n"` and its NUL fit the 1024 bytes of `call_string`,
`draw_vpi_task_call` writes exactly that line followed by `";\n"`, with no
result operand and no operand list, and logs nothing else, so there is no
acquisition and no release. -/
theorem task_call_without_arguments {σ : Type} (T : Target) (C : Collab σ)
    (tnet : ivl_statement) (w : World σ)
    (hzero : ivl_stmt_parm_list tnet = [])
    (hfit : (vpi_call_line C tnet).length + 1 ≤ sizeof_call_string) :
    draw_vpi_task_call T C tnet w
        = .ok ⟨w.ext, w.log ++ [Event.fprintf_vvp_out (vpi_call_line C tnet),
            Event.fprintf_vvp_out ";\n"], w.vvp_errors⟩
      ∧ vvp_text [Event.fprintf_vvp_out (vpi_call_line C tnet), Event.fprintf_vvp_out ";\n"]
        = vpi_call_line C tnet ++ ";\n"
      ∧ acquisitions [Event.fprintf_vvp_out (vpi_call_line C tnet),
          Event.fprintf_vvp_out ";\n"] = 0
      ∧ releases [Event.fprintf_vvp_out (vpi_call_line C tnet),
          Event.fprintf_vvp_out ";\n"] = 0 := by
  refine ⟨?_, ?_, rfl, rfl⟩
  · unfold vpi_call_line at hfit ⊢
    unfold draw_vpi_task_call sprintf_call_string
    rw [if_pos hfit]
    simp only [draw_vpi_taskfunc_args, call_parms, hzero, classify_args, emit_args,
      fprintf_vvp_out, List.append_assoc, List.singleton_append]
  · simp only [vvp_text, String.append_empty]

/-- C16 at the call of `$display` without arguments at file index 2, line
10: the output is `    %vpi_call 2 10 "$display";` and a newline, and the
log holds the two writes only. -/
theorem task_call_display :
    ivl_stmt_parm_list (task_stmt "$display" []) = []
      ∧ vpi_call_line sample_collab (task_stmt "$display" []) = "    %vpi_call 2 10 \"$display\""
      ∧ draw_vpi_task_call lp64 sample_collab (task_stmt "$display" []) sample_world
        = .ok ⟨8, [Event.fprintf_vvp_out "    %vpi_call 2 10 \"$display\"",
            Event.fprintf_vvp_out ";\n"], 0⟩ :=
  ⟨rfl, by decide,
    (task_call_without_arguments lp64 sample_collab (task_stmt "$display" []) sample_world
      rfl (by decide)).1⟩

/-- C18 as stated fails when `allocate_word` returns 0, the value that
the vector form takes for a failed reservation: `draw_vpi_rfunc_call`
leaves `vvp_errors` at 0 and writes no diagnostic, while
`draw_vpi_func_call` in the same world writes one and counts an error. -/
theorem rfunc_call_does_not_test_reservation :
    (sample_collab.allocate_word 0).1 = 0 ∧ (sample_collab.allocate_vector 32 0).1 = 0
      ∧ (∃ w1, draw_vpi_rfunc_call lp64 sample_collab bitstoreal_call ⟨0, [], 0⟩ = .ok (0, w1)
        ∧ w1.vvp_errors = 0
        ∧ w1.log = [Event.allocate_word 0,
            Event.fprintf_vvp_out "    %vpi_func/r 2 10 \"$bitstoreal\", 0",
            Event.fprintf_vvp_out ", 8'b00001010",
            Event.fprintf_vvp_out ";\n"])
      ∧ ∃ w1, draw_vpi_func_call lp64 sample_collab bitstoreal_call 32 ⟨0, [], 0⟩
          = .ok (⟨0, 32⟩, w1)
        ∧ w1.vvp_errors = 1
        ∧ w1.log = [Event.allocate_vector 32 0,
            Event.fprintf_stderr ("f.v:10: vvp.tgt error: Unable to allocate 32 thread bits"
              ++ " for system function result.\n"),
            Event.fprintf_vvp_out "    %vpi_func 2 10 \"$bitstoreal\", 0, 32",
            Event.fprintf_vvp_out ", 8'b00001010",
            Event.fprintf_vvp_out ";\n"] :=
  ⟨rfl, rfl, ⟨_, rfl, rfl, rfl⟩, _, rfl, rfl, rfl⟩

/-- C18, amended: in a real function call that is lowered, the reservation
`allocate_word()` is the first event, before every evaluator call of the
classification; the text written afterwards is
`    %vpi_func/r <file> <line> "<name>", <index>`, then the operands of
the arguments as `draw_vpi_taskfunc_args` gives them for a task, then
`";\n"`; the function returns the index; and whatever index came back,
`vvp_errors` is left as it was and no diagnostic is written. -/
theorem rfunc_call_run {σ : Type} (T : Target) (C : Collab σ) (fnet : ivl_expr)
    (w w1 : World σ) (res : Int)
    (h : draw_vpi_rfunc_call T C fnet w = .ok (res, w1)) :
    res = (C.allocate_word w.ext).1
      ∧ w1.vvp_errors = w.vvp_errors
      ∧ draw_vpi_taskfunc_args T C (vpi_func_r_line C fnet res) none (some fnet)
          ⟨(C.allocate_word w.ext).2, w.log ++ [Event.allocate_word res], w.vvp_errors⟩
        = .ok w1
      ∧ ∃ (args : List args_info) (evs1 evs2 : List Event),
        w1.log = w.log ++ Event.allocate_word res :: evs1 ++ evs2
        ∧ (∀ e ∈ evs1, e.is_acquire = true)
        ∧ args.length = (ivl_expr_parm_list fnet).length
        ∧ vvp_text evs2 = vpi_func_r_line C fnet res
            ++ operand_list (args.map (fun a => a.text)) ++ ";\n"
        ∧ (∀ e ∈ evs2, (∃ text, e = Event.fprintf_vvp_out text)
            ∨ ∃ a ∈ args, a.vec_flag = true
              ∧ (e = Event.clr_vector a.vec ∨ e = Event.clr_word a.vec.base)) := by
  unfold draw_vpi_rfunc_call at h
  simp only at h
  split at h
  · cases h
  · rename_i cs hcs
    have hline := sprintf_call_string_ok _ _ hcs
    split at h
    · cases h
    · rename_i w2 hrun
      simp only [Except.ok.injEq, Prod.mk.injEq] at h
      obtain ⟨rfl, rfl⟩ := h
      obtain ⟨ps, args, e1, e2, hps, hlen, -, hlog, hacq, htext, hrel, herr⟩ :=
        taskfunc_args_run T C cs none (some fnet) _ _ hrun
      have hps' : ps = ivl_expr_parm_list fnet := by
        simp only [call_parms, Except.ok.injEq] at hps
        exact hps.symm
      subst hline
      refine ⟨rfl, ?_, hrun, args, e1, e2, ?_, hacq, by rw [hlen, hps'], ?_, hrel⟩
      · rw [herr]; rfl
      · rw [hlog]
        simp [call_allocate_word]
      · rw [htext]; rfl

/-- The amended C18 at `$bitstoreal(8'b00001010)` with the word 4 free:
the line is `    %vpi_func/r 2 10 "$bitstoreal", 4, 8'b00001010;` and 4 is
returned, with `vvp_errors` unchanged. -/
theorem rfunc_call_run_witness :
    ∃ w1, draw_vpi_rfunc_call lp64 sample_collab bitstoreal_call ⟨4, [], 0⟩ = .ok (4, w1)
      ∧ vvp_text w1.log = "    %vpi_func/r 2 10 \"$bitstoreal\", 4, 8'b00001010;\n"
      ∧ (4 : Int) = (sample_collab.allocate_word 4).1
      ∧ w1.vvp_errors = 0 :=
  ⟨_, rfl, rfl,
    (rfunc_call_run lp64 sample_collab bitstoreal_call ⟨4, [], 0⟩ _ 4 rfl).1,
    (rfunc_call_run lp64 sample_collab bitstoreal_call ⟨4, [], 0⟩ _ 4 rfl).2.1⟩

/-! ## Constants with unknown bits -/

/-- C20 as stated fails at the unsigned 8-bit constant `8'b0000000x`:
`is_constant_number` accepts it, `get_constant_number` stops at its
assertion on bit 0, and so does the lowering of `vec[8'b0000000x +: 2]`. -/
theorem unknown_bit_reaches_assertion :
    ivl_expr_type unsigned8_x = .IVL_EX_NUMBER ∧ 1 ≤ ivl_expr_width unsigned8_x
      ∧ is_constant_number lp64 unsigned8_x = true
      ∧ get_constant_number lp64 unsigned8_x = .error Fault.assert_failed
      ∧ classify_arg lp64 sample_collab (select_expr (signal_expr sample_vec) unsigned8_x 2)
          sample_world = .error Fault.assert_failed := by
  refine ⟨rfl, by decide, by decide, by decide, rfl⟩

/-- C20, amended: for a constant of width at least 1 whose bits are all
`'0'` or `'1'` and which `is_constant_number` accepts,
`get_constant_number` returns a value `k` without reaching its assertion
failure; hence every part select of a signal without word index whose
offset is such a constant is lowered, to the token
`&PV<v<sig>_0, <k>, <select width>>`, without a fatal abort. -/
theorem binary_constant_returns {σ : Type} (T : Target) (C : Collab σ) (ex : ivl_expr)
    (htype : ivl_expr_type ex = .IVL_EX_NUMBER)
    (hlen : (ivl_expr_bits ex).length = ivl_expr_width ex)
    (hpos : 1 ≤ ivl_expr_width ex)
    (hbin : all_binary (ivl_expr_bits ex))
    (hconst : is_constant_number T ex = true) :
    ∃ k, get_constant_number T ex = .ok k
      ∧ ∀ (expr vexpr : ivl_expr) (w : World σ),
          ivl_expr_type expr = .IVL_EX_SELECT → ivl_expr_oper1 expr = some vexpr →
          ivl_expr_type vexpr = .IVL_EX_SIGNAL → ivl_expr_oper1 vexpr = none →
          ivl_expr_oper2 expr = some ex →
          classify_arg T C expr w
            = .ok (⟨"&PV<v" ++ T.fmt_p (ivl_expr_signal vexpr).addr ++ "_0, "
                ++ toString k ++ ", " ++ toString (ivl_expr_width expr) ++ ">",
                false, ⟨0, 0⟩⟩, w) := by
  obtain ⟨k, hk⟩ := get_constant_number_returns T ex htype hlen hpos hbin
  refine ⟨k, hk, ?_⟩
  intro expr vexpr w h1 h2 h3 h4 h5
  rw [classify_constant_select T C expr w vexpr ex h1 h2 h3 h4 h5 hconst, hk]
  rfl

/-- The amended C20 at the unsigned 8-bit constant 10 (`8'b00001010`) as
the offset of `vec[10 +: 2]`: the constant has the value 10 and the select
is lowered to `&PV<v0x1000_0, 10, 2>`. -/
theorem binary_constant_returns_witness :
    all_binary (ivl_expr_bits unsigned8_ten)
      ∧ is_constant_number lp64 unsigned8_ten = true
      ∧ get_constant_number lp64 unsigned8_ten = .ok 10
      ∧ classify_arg lp64 sample_collab (select_expr (signal_expr sample_vec) unsigned8_ten 2)
          sample_world = .ok (⟨"&PV<v0x1000_0, 10, 2>", false, ⟨0, 0⟩⟩, sample_world)
      ∧ ∃ k, get_constant_number lp64 unsigned8_ten = .ok k
        ∧ ∀ (expr vexpr : ivl_expr) (w : World Nat),
          ivl_expr_type expr = .IVL_EX_SELECT → ivl_expr_oper1 expr = some vexpr →
          ivl_expr_type vexpr = .IVL_EX_SIGNAL → ivl_expr_oper1 vexpr = none →
          ivl_expr_oper2 expr = some unsigned8_ten →
          classify_arg lp64 sample_collab expr w
            = .ok (⟨"&PV<v" ++ lp64.fmt_p (ivl_expr_signal vexpr).addr ++ "_0, "
                ++ toString k ++ ", " ++ toString (ivl_expr_width expr) ++ ">",
                false, ⟨0, 0⟩⟩, w) :=
  ⟨by decide, by decide, by decide, rfl,
    binary_constant_returns lp64 sample_collab unsigned8_ten rfl rfl (by decide) (by decide)
      (by decide)⟩

end DrawVpi
